import Mathlib

/-!
Verification development for the cactus-client conformance test harness.

Shallow embedding of the parts of the code base that the checked properties
concern: the sep2 identifier helpers (`sep2.py`), the property diff
(`sep2.py`), the resource store (`model/resource.py`), the step scheduler
(`model/execution.py`), the DERControl response state machine
(`action/der_controls.py`) and the list pagination / rate-limit retry of the
protocol client (`action/server.py`).

Python `datetime` values are embedded as integers (unix seconds), python
dicts as functions into `Option`, raised exceptions as `Except` /
explicitly returned error values.
-/

namespace Cactus

/-! ## Errors (`error.py` is not part of the source tree; only the two
exception names used by the embedded functions are modelled) -/

inductive ClientError where
  | cactusClient (msg : String)
  | request (msg : String)
deriving DecidableEq

/-- Decidable equality of embedded fallible results, for evaluating the
embedding at concrete inputs. -/
def exceptDecEq {ε α : Type} [DecidableEq ε] [DecidableEq α] :
    DecidableEq (Except ε α) := fun a b =>
  match a, b with
  | Except.error e1, Except.error e2 =>
    if h : e1 = e2 then Decidable.isTrue (by rw [h])
    else Decidable.isFalse (by intro hc; cases hc; exact h rfl)
  | Except.error _, Except.ok _ => Decidable.isFalse (by intro hc; cases hc)
  | Except.ok _, Except.error _ => Decidable.isFalse (by intro hc; cases hc)
  | Except.ok v1, Except.ok v2 =>
    if h : v1 = v2 then Decidable.isTrue (by rw [h])
    else Decidable.isFalse (by intro hc; cases hc; exact h rfl)

instance {ε α : Type} [DecidableEq ε] [DecidableEq α] : DecidableEq (Except ε α) :=
  exceptDecEq

/-! ## `constants.py` -/

/-- MAX_TIME_DRIFT_SECONDS from `constants.py`: accepted "desync" in time
comparisons. -/
def MAX_TIME_DRIFT_SECONDS : Nat := 5

/-! ## `sep2.py`: sum_digits and convert_lfdi_to_sfdi -/

/-- Loop body of `sum_digits`: `while n: s += n % 10; n //= 10`.  The first
argument is fuel bounding the number of iterations; since `n / 10 < n` for
`n ≠ 0`, fuel `n` always suffices (the loop runs at most `n` times). -/
def sum_digits_aux : Nat → Nat → Nat
  | 0, _ => 0
  | fuel + 1, n => if n = 0 then 0 else n % 10 + sum_digits_aux fuel (n / 10)

/-- `sum_digits` from `sep2.py`: sums the base-10 digits of `abs(n)`. -/
def sum_digits (n : Int) : Nat := sum_digits_aux n.natAbs n.natAbs

/-- Value of a single hexadecimal digit character, `none` for any other
character (models what python `int(s, 16)` accepts per character). -/
def hexDigitVal (c : Char) : Option Nat :=
  if 48 ≤ c.toNat ∧ c.toNat ≤ 57 then some (c.toNat - 48)
  else if 97 ≤ c.toNat ∧ c.toNat ≤ 102 then some (c.toNat - 97 + 10)
  else if 65 ≤ c.toNat ∧ c.toNat ≤ 70 then some (c.toNat - 65 + 10)
  else none

def parseHexAux : List Char → Nat → Option Nat
  | [], acc => some acc
  | c :: cs, acc =>
    match hexDigitVal c with
    | none => none
    | some v => parseHexAux cs (16 * acc + v)

/-- Models python `int("0x" + s, 16)`: the base-16 value of `s`, failing
(`ValueError`) on an empty digit string or any non-hex character. -/
def parseHexDigits (l : List Char) : Option Nat :=
  if l.isEmpty then none else parseHexAux l 0

/-- Models python `str.upper` on a single character for the ASCII range
(the only range exercised here: hex characters and resource keys). -/
def ascii_upper (c : Char) : Char :=
  if 97 ≤ c.toNat ∧ c.toNat ≤ 122 then Char.ofNat (c.toNat - 32) else c

/-- Models python `str.lower` on a single character for the ASCII range. -/
def ascii_lower (c : Char) : Char :=
  if 65 ≤ c.toNat ∧ c.toNat ≤ 90 then Char.ofNat (c.toNat + 32) else c

/-- Models python `str.upper` (ASCII range). -/
def str_upper (s : String) : String := String.mk (s.data.map ascii_upper)

/-- Models python `str.lower` (ASCII range). -/
def str_lower (s : String) : String := String.mk (s.data.map ascii_lower)

/-- `convert_lfdi_to_sfdi` from `sep2.py`.

```
if len(lfdi) != 40: raise ValueError(...)
raw_sfdi = int(("0x" + lfdi[:9]), 16)
sfdi_checksum = (10 - (sum_digits(raw_sfdi) % 10)) % 10
return raw_sfdi * 10 + sfdi_checksum
```
The two raising paths (wrong length, non-hex prefix) are embedded as
`Except.error`. -/
def convert_lfdi_to_sfdi (lfdi : String) : Except String Nat :=
  if lfdi.length ≠ 40 then
    Except.error "lfdi should be 40 hex characters"
  else
    match parseHexDigits (lfdi.data.take 9) with
    | none => Except.error "invalid literal for int with base 16"
    | some raw_sfdi =>
      Except.ok (raw_sfdi * 10 + (10 - sum_digits (Int.ofNat raw_sfdi) % 10) % 10)

/-! ## `sep2.py`: get_property_changes

The compared values are attributes of pydantic XML models (an external
library); an attribute value is embedded as a `PyVal`: python `None`, an
int, a str, a list (whose elements the diff never descends into), or any
other object (represented by an opaque tag, compared structurally like
python `==` on equal-type objects). -/

inductive PyVal where
  | pynone
  | pyint (n : Int)
  | pystr (s : String)
  | pylist (tag : Nat)
  | pyobj (tag : Nat)
deriving DecidableEq

/-- Models python `str(v)` as used when a difference string is built.  The
rendering of list/object values is abstracted (no checked property
depends on it); ints and strings render as themselves. -/
def pyStr : PyVal → String
  | .pynone => "None"
  | .pyint n => toString n
  | .pystr s => s
  | .pylist t => "[" ++ toString t ++ "]"
  | .pyobj t => "<object " ++ toString t ++ ">"

/-- Models the python substring test `needle in haystack`. -/
def list_contains_sub (needle : List Char) : List Char → Bool
  | [] => needle.isEmpty
  | c :: rest => needle.isPrefixOf (c :: rest) || list_contains_sub needle rest

def isPyList : PyVal → Bool
  | .pylist _ => true
  | _ => false

/-- The string tolerance of `get_property_changes`:
`isinstance(source_val, str) and returned_val is not None and
isinstance(returned_val, str)` and one upper-cased value ends with the
other. -/
def strTolerant (source_val returned_val : PyVal) : Bool :=
  match source_val, returned_val with
  | .pystr a, .pystr b =>
    let source_upper := str_upper a
    let returned_upper := str_upper b
    source_upper.data.isSuffixOf returned_upper.data
      || returned_upper.data.isSuffixOf source_upper.data
  | _, _ => false

/-- The time tolerance of `get_property_changes`: `"time" in key.lower()`,
both values ints, and `abs(source_val - returned_val) <=
MAX_TIME_DRIFT_SECONDS`. -/
def timeTolerant (key : String) (source_val returned_val : PyVal) : Bool :=
  match source_val, returned_val with
  | .pyint a, .pyint b =>
    list_contains_sub "time".data (str_lower key).data
      && decide ((a - b).natAbs ≤ MAX_TIME_DRIFT_SECONDS)
  | _, _ => false

/-- The body of the `for key, source_val in source.__dict__.items()` loop of
`get_property_changes`: the difference string appended for one key, or
`none` when the loop appends nothing for that key.  The guards appear in
source order: `source_val is not None and source_val != returned_val`, then
the list, string, postRate and time tolerances. -/
def diff_for_key (key : String) (source_val returned_val : PyVal) : Option String :=
  if source_val = PyVal.pynone then none
  else if source_val = returned_val then none
  else if isPyList source_val then none
  else if strTolerant source_val returned_val then none
  else if key = "postRate" then none
  else if timeTolerant key source_val returned_val then none
  else some (key ++ " had " ++ pyStr source_val ++ " changed to " ++ pyStr returned_val)

/-- Models python `getattr(returned, key, None)` on an embedded object:
the object is its `__dict__`, an association list in attribute order. -/
def py_getattr (obj : List (String × PyVal)) (key : String) : PyVal :=
  match obj.find? (fun kv => kv.1 == key) with
  | some kv => kv.2
  | none => PyVal.pynone

/-- `get_property_changes` from `sep2.py`: compares every non-None attribute
of `source` against `returned`, returning the comma-joined differences or
`None`. -/
def get_property_changes (source returned : List (String × PyVal)) : Option String :=
  let differences := source.filterMap (fun kv => diff_for_key kv.1 kv.2 (py_getattr returned kv.1))
  if differences.isEmpty then none
  else some (String.intercalate ", " differences)

/-! ## `model/resource.py`: resource identities and the resource store -/

/-- `CSIPAusResource` (external `cactus_test_definitions.csipaus` enum): the
resource kinds handled by the store, as enumerated in
`RESOURCE_SEP2_TYPES` / `CSIPAusResourceTree` in `model/resource.py`. -/
inductive CSIPAusResource where
  | DeviceCapability
  | Time
  | MirrorUsagePointList
  | EndDeviceList
  | MirrorUsagePoint
  | EndDevice
  | SubscriptionList
  | Subscription
  | ConnectionPoint
  | Registration
  | FunctionSetAssignmentsList
  | FunctionSetAssignments
  | DERProgramList
  | DERProgram
  | DefaultDERControl
  | DERControlList
  | DERControl
  | DERList
  | DER
  | DERCapability
  | DERSettings
  | DERStatus
  | Notification
deriving DecidableEq

/-- Modelled from the spec: `is_list_resource` lives in the external
`cactus_test_definitions` package (not in the source tree); a resource kind
is a list resource exactly when it is one of the `...List` collection
kinds paginated by the protocol client. -/
def is_list_resource : CSIPAusResource → Bool
  | .MirrorUsagePointList => true
  | .EndDeviceList => true
  | .SubscriptionList => true
  | .FunctionSetAssignmentsList => true
  | .DERProgramList => true
  | .DERControlList => true
  | .DERList => true
  | _ => false

/-- `CSIPAusResourceTree.parent_resource`: the immediate parent of each
resource kind per the `create_node` calls of `CSIPAusResourceTree.__init__`
(`none` for the root; `Notification` is not in the tree). -/
def parent_resource : CSIPAusResource → Option CSIPAusResource
  | .DeviceCapability => none
  | .Time => some .DeviceCapability
  | .MirrorUsagePointList => some .DeviceCapability
  | .EndDeviceList => some .DeviceCapability
  | .MirrorUsagePoint => some .MirrorUsagePointList
  | .EndDevice => some .EndDeviceList
  | .ConnectionPoint => some .EndDevice
  | .Registration => some .EndDevice
  | .SubscriptionList => some .EndDevice
  | .Subscription => some .SubscriptionList
  | .FunctionSetAssignmentsList => some .EndDevice
  | .FunctionSetAssignments => some .FunctionSetAssignmentsList
  | .DERProgramList => some .FunctionSetAssignments
  | .DERProgram => some .DERProgramList
  | .DefaultDERControl => some .DERProgram
  | .DERControlList => some .DERProgram
  | .DERControl => some .DERControlList
  | .DERList => some .EndDevice
  | .DER => some .DERList
  | .DERCapability => some .DER
  | .DERSettings => some .DER
  | .DERStatus => some .DER
  | .Notification => none

/-- `StoredResourceId`: a unique ID for a single resource based on the chain
of parent hrefs and the href for this node (own href first, root last). -/
structure StoredResourceId where
  hrefs : List String
deriving DecidableEq

/-- Models python negative-index slicing `l[-k:]` (for `k = 0` python reads
`l[0:]`, i.e. the whole list). -/
def py_suffix_slice (l : List String) (k : Nat) : List String :=
  if k = 0 then l else l.drop (l.length - k)

/-- `StoredResourceId.is_descendent_of`: self is a descendent of `ancestor`
when self is strictly deeper and `self.hrefs[-len(ancestor.hrefs):] ==
ancestor.hrefs`. -/
def StoredResourceId.is_descendent_of (self ancestor : StoredResourceId) : Bool :=
  let ancestor_depth := ancestor.hrefs.length
  let self_depth := self.hrefs.length
  if self_depth ≤ ancestor_depth then false
  else decide (py_suffix_slice self.hrefs ancestor_depth = ancestor.hrefs)

/-- `StoredResourceId.is_ancestor_of`: self is an ancestor of `descendent`
when self is strictly shallower and `self.hrefs ==
descendent.hrefs[-len(self.hrefs):]`. -/
def StoredResourceId.is_ancestor_of (self descendent : StoredResourceId) : Bool :=
  let descendent_depth := descendent.hrefs.length
  let self_depth := self.hrefs.length
  if self_depth ≥ descendent_depth then false
  else decide (self.hrefs = py_suffix_slice descendent.hrefs self_depth)

/-- `StoredResourceId.from_parent`: prepend this node's href to the parent
chain. -/
def StoredResourceId.from_parent (parent : Option StoredResourceId) (href : String) :
    StoredResourceId :=
  match parent with
  | none => ⟨[href]⟩
  | some p => ⟨href :: p.hrefs⟩

/-- The common 2030.5 `Resource` payload (external `envoy_schema` pydantic
model).  The store itself reads only `href`; the subordinate `Link` hrefs
that `generate_resource_link_hrefs` extracts from the typed XML fields are
embedded as the pre-extracted `link_hrefs` association, and every other XML
field is abstracted by `payload` (compared structurally, like pydantic
equality). -/
structure ResourceData where
  href : Option String
  link_hrefs : List (CSIPAusResource × String)
  payload : Nat
deriving DecidableEq

/-- `generate_resource_link_hrefs` reads the typed `Link` fields of the
external model; on the embedding those are exactly `resource.link_hrefs`. -/
def generate_resource_link_hrefs (resource : ResourceData) :
    List (CSIPAusResource × String) := resource.link_hrefs

/-- `StoredResource` from `model/resource.py`.  `created_at` (a datetime)
is embedded as unix seconds. -/
structure StoredResource where
  id : StoredResourceId
  created_at : Int
  resource_type : CSIPAusResource
  resource_link_hrefs : List (CSIPAusResource × String)
  member_of_list : Option CSIPAusResource
  resource : ResourceData
deriving DecidableEq

/-- `StoredResource.from_resource`.  `utc_now()` is passed in explicitly as
`now`.  Python `if not resource.href` raises for a missing href and for an
empty one. -/
def StoredResource.from_resource (resource_type : CSIPAusResource)
    (parent : Option StoredResourceId) (resource : ResourceData) (now : Int) :
    Except ClientError StoredResource :=
  let member_of_list :=
    match parent_resource resource_type with
    | some parent_type => if is_list_resource parent_type then some parent_type else none
    | none => none
  match resource.href with
  | none => Except.error (ClientError.cactusClient "Received a resource with no href")
  | some h =>
    if h = "" then Except.error (ClientError.cactusClient "Received a resource with no href")
    else
      Except.ok
        { id := StoredResourceId.from_parent parent h
          created_at := now
          resource_type := resource_type
          resource := resource
          resource_link_hrefs := generate_resource_link_hrefs resource
          member_of_list := member_of_list }

/-- `ResourceStore`: the two parallel python dicts, embedded as functions
into `Option` (a missing key maps to `none`). -/
structure ResourceStore where
  resource_store : CSIPAusResource → Option (List StoredResource)
  id_store : StoredResourceId → Option StoredResource

/-- A freshly constructed store: both dicts empty. -/
def ResourceStore.empty : ResourceStore :=
  { resource_store := fun _ => none, id_store := fun _ => none }

/-- `ResourceStore.get_for_id`. -/
def ResourceStore.get_for_id (s : ResourceStore) (id : StoredResourceId) :
    Option StoredResource := s.id_store id

/-- `ResourceStore.get_for_type`: `self.resource_store.get(type, [])`. -/
def ResourceStore.get_for_type (s : ResourceStore) (type : CSIPAusResource) :
    List StoredResource := (s.resource_store type).getD []

/-- `ResourceStore.clear_resource`: drop the by-type list and unlink the ID
entries of its members.  (On stores where two list members shared an ID the
python `del` would raise `KeyError` on the second unlink; such stores are
unreachable, see the store invariant, and the embedding removes
idempotently.) -/
def ResourceStore.clear_resource (s : ResourceStore) (type : CSIPAusResource) :
    ResourceStore :=
  match s.resource_store type with
  | none => s
  | some existing_srs =>
    { resource_store := fun t => if t = type then none else s.resource_store t
      id_store := fun i =>
        if existing_srs.any (fun sr => sr.id == i) then none else s.id_store i }

/-- `ResourceStore.append_resource`.  Returns the store python leaves
behind together with the returned `StoredResource` or the raised
exception; both raising paths (no href, duplicate ID) occur before any
mutation. -/
def ResourceStore.append_resource (s : ResourceStore) (type : CSIPAusResource)
    (parent : Option StoredResourceId) (resource : ResourceData) (now : Int) :
    ResourceStore × Except ClientError StoredResource :=
  match StoredResource.from_resource type parent resource now with
  | Except.error e => (s, Except.error e)
  | Except.ok new_resource =>
    match s.id_store new_resource.id with
    | some _ =>
      (s, Except.error (ClientError.cactusClient
        "Resource store already has this resource. Cannot append a copy."))
    | none =>
      let with_id : ResourceStore :=
        { s with id_store := fun i =>
            if i = new_resource.id then some new_resource else s.id_store i }
      let new_list :=
        match s.resource_store type with
        | none => [new_resource]
        | some existing_resources_of_type => existing_resources_of_type ++ [new_resource]
      ({ with_id with resource_store := fun t =>
          if t = type then some new_list else s.resource_store t },
       Except.ok new_resource)

/-- The `for idx, potential_match in enumerate(...)` loop of
`upsert_resource`: replace the first entry with a matching ID, appending
when none matches. -/
def upsert_into_list (new_resource : StoredResource) :
    List StoredResource → List StoredResource
  | [] => [new_resource]
  | potential_match :: rest =>
    if potential_match.id = new_resource.id then new_resource :: rest
    else potential_match :: upsert_into_list new_resource rest

/-- `ResourceStore.upsert_resource`: like append, but a resource with the
same href+parent is replaced in place; only the missing-href path raises. -/
def ResourceStore.upsert_resource (s : ResourceStore) (type : CSIPAusResource)
    (parent : Option StoredResourceId) (resource : ResourceData) (now : Int) :
    ResourceStore × Except ClientError StoredResource :=
  match StoredResource.from_resource type parent resource now with
  | Except.error e => (s, Except.error e)
  | Except.ok new_resource =>
    let with_id : ResourceStore :=
      { s with id_store := fun i =>
          if i = new_resource.id then some new_resource else s.id_store i }
    let new_list :=
      match s.resource_store type with
      | none => [new_resource]
      | some existing_resources_of_type => upsert_into_list new_resource existing_resources_of_type
    ({ with_id with resource_store := fun t =>
        if t = type then some new_list else s.resource_store t },
     Except.ok new_resource)

/-- `ResourceStore.delete_resource`: pop the ID entry first, then remove the
item from its by-type list (`list.remove` removes the first equal element;
when the item is missing from the list python raises after the pop, which
the embedding reports as the error while keeping the state the exception
leaves behind). -/
def ResourceStore.delete_resource (s : ResourceStore) (id : StoredResourceId) :
    ResourceStore × Except ClientError (Option StoredResource) :=
  match s.id_store id with
  | none => (s, Except.ok none)
  | some deleted_item =>
    let popped : ResourceStore :=
      { s with id_store := fun i => if i = id then none else s.id_store i }
    match s.resource_store deleted_item.resource_type with
    | none => (popped, Except.ok (some deleted_item))
    | some resource_list =>
      if deleted_item ∈ resource_list then
        ({ popped with resource_store := fun t =>
            if t = deleted_item.resource_type then some (resource_list.erase deleted_item)
            else s.resource_store t },
         Except.ok (some deleted_item))
      else
        (popped, Except.error (ClientError.cactusClient
          "Could not find the id in the store. This is a bug with the tests."))

/-- One store mutation, for reasoning about arbitrary operation sequences. -/
inductive StoreOp where
  | append (type : CSIPAusResource) (parent : Option StoredResourceId)
      (resource : ResourceData) (now : Int)
  | upsert (type : CSIPAusResource) (parent : Option StoredResourceId)
      (resource : ResourceData) (now : Int)
  | delete (id : StoredResourceId)
  | clear (type : CSIPAusResource)

/-- The store state after one operation — the state python leaves behind
whether or not the operation raised (the raising paths of append/upsert
mutate nothing; the raising path of delete has already popped the ID). -/
def applyStoreOp (s : ResourceStore) : StoreOp → ResourceStore
  | .append type parent resource now => (s.append_resource type parent resource now).1
  | .upsert type parent resource now => (s.upsert_resource type parent resource now).1
  | .delete id => (s.delete_resource id).1
  | .clear type => s.clear_resource type

/-- The store state after a sequence of operations. -/
def runStoreOps (ops : List StoreOp) (s : ResourceStore) : ResourceStore :=
  ops.foldl applyStoreOp s

/-- The identifier an append/upsert of `(parent, resource)` stores under,
when the resource has a usable href. -/
def opResourceId (parent : Option StoredResourceId) (resource : ResourceData) :
    Option StoredResourceId :=
  match resource.href with
  | none => none
  | some h => if h = "" then none else some (StoredResourceId.from_parent parent h)

/-- Type-consistency of an operation sequence: a single assignment `τ` of
resource kinds to identifiers covers every append/upsert (each identifier
is only ever stored under one resource kind).  Sequences issued by the
discovery walker have this shape since an href chain determines where in
the resource tree the payload came from. -/
def OpsConsistent (τ : StoredResourceId → CSIPAusResource) (ops : List StoreOp) : Prop :=
  ∀ op ∈ ops,
    match op with
    | StoreOp.append type parent resource _ =>
      ∀ i, opResourceId parent resource = some i → τ i = type
    | StoreOp.upsert type parent resource _ =>
      ∀ i, opResourceId parent resource = some i → τ i = type
    | StoreOp.delete _ => True
    | StoreOp.clear _ => True

/-- The store invariant: by-type entries carry their type, are indexed by
ID, IDs are typed by `τ`, ID entries appear in their own type list, and no
type list holds two entries with one ID. -/
def StoreWF (τ : StoredResourceId → CSIPAusResource) (s : ResourceStore) : Prop :=
  (∀ t sr, sr ∈ s.get_for_type t →
    sr.resource_type = t ∧ τ sr.id = t ∧ s.id_store sr.id = some sr) ∧
  (∀ i sr, s.id_store i = some sr → sr.id = i ∧ sr ∈ s.get_for_type sr.resource_type) ∧
  (∀ t, (s.get_for_type t).Pairwise (fun a b => a.id ≠ b.id))

/-! ## `model/execution.py`: the step scheduler queue -/

/-- `MAX_PRIMACY` from `model/execution.py` (also inlined as the initial
`lowest_primacy` of `StepExecutionList.peek`). -/
def MAX_PRIMACY : Int := 0xEFFFFFFF

/-- `StepExecution`: a planned execution of a Step.  The `Step` payload
(external `cactus_test_definitions` test-procedure step) is opaque to the
queue and abstracted by a tag; datetimes are unix seconds. -/
structure StepExecution where
  source : Nat
  client_alias : String
  client_resources_alias : String
  primacy : Int
  repeat_number : Nat
  not_before : Option Int
  attempts : Nat
deriving DecidableEq

/-- The skip condition of the `peek` loop:
`se.not_before is not None and se.not_before > now`. -/
def notYetExecutable (now : Int) (se : StepExecution) : Bool :=
  match se.not_before with
  | some nb => decide (nb > now)
  | none => false

/-- The `for se in self._items` loop of `StepExecutionList.peek`, carrying
the running `lowest` / `lowest_primacy` state. -/
def peekLoop (now : Int) : List StepExecution → Option StepExecution → Int →
    Option StepExecution
  | [], lowest, _ => lowest
  | se :: rest, lowest, lowest_primacy =>
    if notYetExecutable now se then peekLoop now rest lowest lowest_primacy
    else if se.primacy < lowest_primacy then peekLoop now rest (some se) se.primacy
    else peekLoop now rest lowest lowest_primacy

/-- `StepExecutionList.peek`: the lowest-primacy executable step execution
(`lowest_primacy` starts at 0xEFFFFFFF). -/
def peek (now : Int) (items : List StepExecution) : Option StepExecution :=
  peekLoop now items none 0xEFFFFFFF

/-- `StepExecutionList.pop`: peek, then `self._items.remove(next_step)`
(removal of the first equal element). -/
def pop (now : Int) (items : List StepExecution) :
    Option StepExecution × List StepExecution :=
  match peek now items with
  | some next_step => (some next_step, items.erase next_step)
  | none => (none, items)

/-- `StepExecutionList.add`: append at the back. -/
def addStep (items : List StepExecution) (se : StepExecution) : List StepExecution :=
  items ++ [se]

/-- Proof helper equivalent of `peekLoop` ignoring the accumulator: the
element the loop would select from the remaining items given the running
primacy bound. -/
def bestOf (now : Int) : List StepExecution → Int → Option StepExecution
  | [], _ => none
  | se :: rest, bound =>
    if notYetExecutable now se then bestOf now rest bound
    else if se.primacy < bound then
      match bestOf now rest se.primacy with
      | some r => some r
      | none => some se
    else bestOf now rest bound

/-! ## `action/der_controls.py`: the DERControl response state machine -/

/-- `EventStatusType` (external `envoy_schema` sep2 enum). -/
inductive EventStatusType where
  | Scheduled
  | Active
  | Cancelled
  | CancelledWithRandomization
  | Superseded
deriving DecidableEq

/-- The sep2 `ResponseType` members the response state machine sends
(external `envoy_schema` enum; the remaining members never appear). -/
inductive ResponseType where
  | EVENT_RECEIVED
  | EVENT_STARTED
  | EVENT_COMPLETED
  | EVENT_CANCELLED
  | EVENT_SUPERSEDED
deriving DecidableEq

/-- Modelled from the spec: `StoredResourceAnnotations` lives in
`model/context.py`, which is not in the source tree.  Per the spec a
stored resource's annotations carry tag sets under named namespaces and
`has_tag` is membership; `determine_response_status` only consults the
`RESPONSES` namespace, embedded here as the set (list) of response tags
already sent for the control. -/
structure StoredResourceAnnotations where
  responses : List ResponseType
deriving DecidableEq

/-- Modelled from the spec: `has_tag(RESPONSES, t)` is membership of `t` in
the control's sent-response tag set. -/
def hasResponseTag (a : StoredResourceAnnotations) (t : ResponseType) : Bool :=
  a.responses.contains t

/-- `determine_response_status` from `action/der_controls.py`.  The
DERControl's `interval.start` (sep2 TimeType) is an integer,
`interval.duration` (sep2 uint32) a natural, and
`int(current_time.timestamp())` is passed directly as
`current_timestamp`. -/
def determine_response_status (event_status : EventStatusType)
    (anns : StoredResourceAnnotations) (interval_start : Int)
    (interval_duration : Nat) (current_timestamp : Int) : Option ResponseType :=
  let sent_cancelled := hasResponseTag anns ResponseType.EVENT_CANCELLED
  let sent_superseded := hasResponseTag anns ResponseType.EVENT_SUPERSEDED
  if sent_cancelled || sent_superseded then none
  else if event_status = EventStatusType.Cancelled then some ResponseType.EVENT_CANCELLED
  else if event_status = EventStatusType.Superseded then some ResponseType.EVENT_SUPERSEDED
  else
    let sent_received := hasResponseTag anns ResponseType.EVENT_RECEIVED
    if event_status = EventStatusType.Scheduled ∧ sent_received = false then
      some ResponseType.EVENT_RECEIVED
    else if event_status = EventStatusType.Active then
      if sent_received = false then some ResponseType.EVENT_RECEIVED
      else
        let event_end := interval_start + interval_duration
        if current_timestamp ≥ interval_start ∧
            hasResponseTag anns ResponseType.EVENT_STARTED = false then
          some ResponseType.EVENT_STARTED
        else if current_timestamp ≥ event_end ∧
            hasResponseTag anns ResponseType.EVENT_COMPLETED = false then
          some ResponseType.EVENT_COMPLETED
        else none
    else none

/-- The spec's pseudocode for `next-response`, written to its own text:

```
if has(CANCELLED) or has(SUPERSEDED): none
if event-status == Cancelled: CANCELLED
if event-status == Superseded: SUPERSEDED
if event-status == Scheduled and not has(RECEIVED): RECEIVED
if event-status == Active:
    if not has(RECEIVED): RECEIVED
    if now_unix >= interval.start and not has(STARTED): STARTED
    if now_unix >= interval.start + interval.duration and not has(COMPLETED): COMPLETED
    else: none
else: none
```
-/
def next_response_spec (event_status : EventStatusType)
    (anns : StoredResourceAnnotations) (interval_start : Int)
    (interval_duration : Nat) (now_unix : Int) : Option ResponseType :=
  if hasResponseTag anns ResponseType.EVENT_CANCELLED
      || hasResponseTag anns ResponseType.EVENT_SUPERSEDED then none
  else if event_status = EventStatusType.Cancelled then some ResponseType.EVENT_CANCELLED
  else if event_status = EventStatusType.Superseded then some ResponseType.EVENT_SUPERSEDED
  else if event_status = EventStatusType.Scheduled ∧
      hasResponseTag anns ResponseType.EVENT_RECEIVED = false then
    some ResponseType.EVENT_RECEIVED
  else if event_status = EventStatusType.Active then
    if hasResponseTag anns ResponseType.EVENT_RECEIVED = false then
      some ResponseType.EVENT_RECEIVED
    else if now_unix ≥ interval_start ∧
        hasResponseTag anns ResponseType.EVENT_STARTED = false then
      some ResponseType.EVENT_STARTED
    else if now_unix ≥ interval_start + interval_duration ∧
        hasResponseTag anns ResponseType.EVENT_COMPLETED = false then
      some ResponseType.EVENT_COMPLETED
    else none
  else none

/-! ## `action/server.py`: list pagination -/

/-- `build_paging_params`: `?s=<start>&l=<limit>&a=<changed_after>`, with
absent parts omitted. -/
def build_paging_params (start : Option Nat) (limit : Option Nat)
    (changed_after : Option Int) : String :=
  let parts : List String :=
    (match start with
     | some s => ["s=" ++ toString s]
     | none => []) ++
    (match limit with
     | some l => ["l=" ++ toString l]
     | none => []) ++
    (match changed_after with
     | some a => ["a=" ++ toString a]
     | none => [])
  "?" ++ String.intercalate "&" parts

/-- One parsed list page as the paginator sees it: the items the
`item_callback` extracts (pydantic-xml can parse a missing list as `None`),
and the list's `results` and `all_` attributes. -/
structure Sep2Page (α : Type) where
  items : Option (List α)
  results : Option Nat
  all_ : Option Nat

/-- The warnings the paginator can log (`context.warnings` messages keyed
by their cause; the message text itself also names the href). -/
inductive PageWarning where
  | missingResults
  | resultsMismatch
  | missingAll
  | allVaried
  | allCountMismatch
deriving DecidableEq

/-- `fetch_list_page` (minus the HTTP fetch, which yielded `page`): extract
the items, cross-check the `results` attribute, and report the page's
`all_` attribute; returns `(items, all_attribute, logged warnings)`. -/
def fetch_list_page {α : Type} (page : Sep2Page α) :
    List α × Option Nat × List PageWarning :=
  let latest_items := page.items.getD []
  let results_warnings :=
    match page.results with
    | none => [PageWarning.missingResults]
    | some received_results =>
      if received_results ≠ latest_items.length then [PageWarning.resultsMismatch] else []
  let all_warnings :=
    match page.all_ with
    | none => [PageWarning.missingAll]
    | some _ => []
  (latest_items, page.all_, results_warnings ++ all_warnings)

/-- The `while True` loop of `paginate_list_resource_items`.  `pages n` is
the page the server returns to the n-th fetch (the fetch at offset
`n * page_size`); `pages_requested` and `start` mirror the loop variables.
`fuel` only drives the structural recursion: every call keeps
`max_pages ≤ fuel + pages_requested`, which makes the fuel-exhaustion
branch unreachable (see `paginate_loop_fuel_irrelevant`).  Returns the
requested hrefs in order, the logged warnings in order, and either the
raised `RequestException` or the concatenated items together with
`every_all_value`. -/
def paginate_loop {α : Type} (pages : Nat → Sep2Page α) (list_href : String)
    (page_size max_pages : Nat) :
    Nat → Nat → Nat →
    List String × List PageWarning × Except ClientError (List α × List Nat)
  | fuel, pages_requested, start =>
    let page_href := list_href ++ build_paging_params (some start) (some page_size) none
    let fetched := fetch_list_page (pages pages_requested)
    let latest_items := fetched.1
    let received_all := fetched.2.1
    let page_warnings := fetched.2.2
    let alls_here : List Nat :=
      match received_all with
      | some a => [a]
      | none => []
    if latest_items.isEmpty then
      ([page_href], page_warnings, Except.ok (latest_items, alls_here))
    else if pages_requested + 1 ≥ max_pages then
      ([page_href], page_warnings, Except.error (ClientError.request
        "Paginating exceeded max pages"))
    else
      match fuel with
      | 0 =>
        ([page_href], page_warnings, Except.error (ClientError.request "out of fuel"))
      | fuel' + 1 =>
        let rest := paginate_loop pages list_href page_size max_pages fuel'
          (pages_requested + 1) (start + page_size)
        (page_href :: rest.1, page_warnings ++ rest.2.1,
         match rest.2.2 with
         | Except.error e => Except.error e
         | Except.ok (items, alls) => Except.ok (latest_items ++ items, alls_here ++ alls))

/-- `paginate_list_resource_items` from `action/server.py`: run the paging
loop from offset 0, then cross-check the collected `all` attributes
against each other and against the total item count.  Returns the
requested hrefs, the logged warnings, and the result or the raised
`RequestException`. -/
def paginate_list_resource_items {α : Type} (pages : Nat → Sep2Page α)
    (list_href : String) (page_size : Nat) (max_pages_requested : Nat := 20) :
    List String × List PageWarning × Except ClientError (List α) :=
  let looped := paginate_loop pages list_href page_size max_pages_requested
    max_pages_requested 0 0
  match looped.2.2 with
  | Except.error e => (looped.1, looped.2.1, Except.error e)
  | Except.ok (all_items, every_all_value) =>
    let expected_count :=
      match every_all_value with
      | [] => 0
      | a :: _ => a
    let final_warnings :=
      if 1 < every_all_value.eraseDups.length then [PageWarning.allVaried]
      else if expected_count ≠ all_items.length then [PageWarning.allCountMismatch]
      else []
    (looped.1, looped.2.1 ++ final_warnings, Except.ok all_items)

/-! ## `action/server.py`: the HTTP 429 rate-limit retry of
`request_for_step` -/

/-- Modelled from the spec: the rate-limit retry of `request_for_step` is
missing from the source tree (its unit tests import
`RATE_LIMIT_RETRY_DELAYS` from `action/server.py` and mock
`asyncio.sleep`, but the module in the tree has neither).  Per the spec the
schedule is fixed and increasing, 1s 2s 4s 8s 16s. -/
def RATE_LIMIT_RETRY_DELAYS : List Nat := [1, 2, 4, 8, 16]

/-- Modelled from the spec: the retry loop of `request(step, path, method,
body?)`.  `respond k` is the HTTP status the server answers to the k-th
issue of the request.  On a 429 the client sleeps for the next schedule
entry and re-issues; after the last schedule entry the response is
returned as-is.  Returns the final status and the sleeps performed, in
order. -/
def request_with_retries (respond : Nat → Nat) : Nat → List Nat → Nat × List Nat
  | attempt, [] => (respond attempt, [])
  | attempt, delay :: remaining_delays =>
    let status := respond attempt
    if status = 429 then
      let rest := request_with_retries respond (attempt + 1) remaining_delays
      (rest.1, delay :: rest.2)
    else (status, [])

/-- Modelled from the spec: the status / back-off behaviour of
`request_for_step` against a server answering `respond`. -/
def request_for_step_status (respond : Nat → Nat) : Nat × List Nat :=
  request_with_retries respond 0 RATE_LIMIT_RETRY_DELAYS

/-! # Theorems -/

set_option maxRecDepth 8000
set_option maxHeartbeats 1000000

/-! ## C5: convert_lfdi_to_sfdi -/

theorem char_toNat_ofNatAux (n : Nat) (h : n.isValidChar) :
    (Char.ofNatAux n h).toNat = n := by
  simp [Char.ofNatAux, Char.toNat, UInt32.toNat]

theorem char_toNat_ofNat_valid (n : Nat) (h : n.isValidChar) :
    (Char.ofNat n).toNat = n := by
  unfold Char.ofNat
  rw [dif_pos h]
  exact char_toNat_ofNatAux n h

theorem ascii_upper_toNat (c : Char) (h : 97 ≤ c.toNat ∧ c.toNat ≤ 122) :
    (ascii_upper c).toNat = c.toNat - 32 := by
  unfold ascii_upper
  rw [if_pos h]
  have hv : (c.toNat - 32).isValidChar := by
    left
    omega
  exact char_toNat_ofNat_valid _ hv

theorem hexDigitVal_ascii_upper (c : Char) :
    hexDigitVal (ascii_upper c) = hexDigitVal c := by
  by_cases h : 97 ≤ c.toNat ∧ c.toNat ≤ 122
  · have ht : (ascii_upper c).toNat = c.toNat - 32 := ascii_upper_toNat c h
    unfold hexDigitVal
    rw [ht]
    split_ifs <;> first
      | rfl
      | omega
  · unfold ascii_upper
    rw [if_neg h]

theorem parseHexAux_map_upper (l : List Char) :
    ∀ acc, parseHexAux (l.map ascii_upper) acc = parseHexAux l acc := by
  induction l with
  | nil => intro acc; rfl
  | cons c cs ih =>
    intro acc
    simp only [List.map_cons, parseHexAux, hexDigitVal_ascii_upper]
    cases hexDigitVal c with
    | none => rfl
    | some v => exact ih _

theorem parseHexDigits_map_upper (l : List Char) :
    parseHexDigits (l.map ascii_upper) = parseHexDigits l := by
  unfold parseHexDigits
  cases l with
  | nil => rfl
  | cons c cs => simpa using parseHexAux_map_upper (c :: cs) 0

/-- C5: `convert_lfdi_to_sfdi` rejects every string that is not exactly 40
characters; on a 40-character string whose first 9 characters parse as hex
`raw` it returns `raw * 10 + checksum` with
`checksum = (10 - (sum_digits raw mod 10)) mod 10`; hence every successful
result is congruent to its checksum mod 10; and the conversion is
case-insensitive in the input. -/
theorem c5_convert_lfdi_to_sfdi :
    (∀ lfdi : String, lfdi.length ≠ 40 →
      convert_lfdi_to_sfdi lfdi = Except.error "lfdi should be 40 hex characters") ∧
    (∀ lfdi : String, ∀ raw : Nat, lfdi.length = 40 →
      parseHexDigits (lfdi.data.take 9) = some raw →
      convert_lfdi_to_sfdi lfdi =
        Except.ok (raw * 10 + (10 - sum_digits (Int.ofNat raw) % 10) % 10)) ∧
    (∀ lfdi : String, ∀ n : Nat, convert_lfdi_to_sfdi lfdi = Except.ok n →
      ∃ raw : Nat, parseHexDigits (lfdi.data.take 9) = some raw ∧
        n % 10 = (10 - sum_digits (Int.ofNat raw) % 10) % 10) ∧
    (∀ lfdi : String, convert_lfdi_to_sfdi (str_upper lfdi) = convert_lfdi_to_sfdi lfdi) := by
  refine ⟨?_, ?_, ?_, ?_⟩
  · intro lfdi h
    unfold convert_lfdi_to_sfdi
    rw [if_pos h]
  · intro lfdi raw hlen hparse
    unfold convert_lfdi_to_sfdi
    rw [if_neg (by omega), hparse]
  · intro lfdi n h
    unfold convert_lfdi_to_sfdi at h
    split_ifs at h
    cases hparse : parseHexDigits (lfdi.data.take 9) with
    | none => rw [hparse] at h; exact absurd h (by simp)
    | some raw =>
      rw [hparse] at h
      refine ⟨raw, rfl, ?_⟩
      have hn : n = raw * 10 + (10 - sum_digits (Int.ofNat raw) % 10) % 10 := by
        simpa using h.symm
      omega
  · intro lfdi
    unfold convert_lfdi_to_sfdi
    have hlen : (str_upper lfdi).length = lfdi.length := by
      show (lfdi.data.map ascii_upper).length = lfdi.data.length
      exact List.length_map _ _
    have hdata : (str_upper lfdi).data = lfdi.data.map ascii_upper := rfl
    rw [hlen, hdata, ← List.map_take, parseHexDigits_map_upper]

/-- Witness for C5 at concrete inputs: a 3-character string is rejected and
a concrete 40-hex-character LFDI (raw prefix 0x012345678 = 305419896,
digit sum 45, checksum 5) maps to 3054198965. -/
theorem c5_convert_lfdi_to_sfdi_witness :
    convert_lfdi_to_sfdi "ABC" = Except.error "lfdi should be 40 hex characters" ∧
    convert_lfdi_to_sfdi "0123456789ABCDEF0123456789ABCDEF01234567" =
      Except.ok 3054198965 := by
  constructor
  · exact c5_convert_lfdi_to_sfdi.1 "ABC" (by decide)
  · have h := c5_convert_lfdi_to_sfdi.2.1 "0123456789ABCDEF0123456789ABCDEF01234567"
      305419896 (by decide) (by decide)
    rw [h]
    congr 1

/-! ## C8: ancestor / descendent consistency of StoredResourceId -/

theorem py_suffix_slice_eq_iff_suffix {A B : List String} (hA : A ≠ [])
    (hlen : A.length < B.length) :
    py_suffix_slice B A.length = A ↔ A <:+ B := by
  unfold py_suffix_slice
  have hk : A.length ≠ 0 := by
    intro h
    exact hA (List.length_eq_zero.mp h)
  rw [if_neg hk]
  constructor
  · intro he
    rw [← he]
    exact List.drop_suffix _ _
  · rintro ⟨t, rfl⟩
    have hl : (t ++ A).length - A.length = t.length := by
      simp
    rw [hl, List.drop_left]

/-- C8: for stored-resource identifiers (whose href chain is never empty —
`from_parent` always produces at least one href), `A.is_ancestor_of B`,
`B.is_descendent_of A` and `A ≠ B ∧ A.hrefs is a suffix of B.hrefs` are all
equivalent, and no identifier is an ancestor or descendent of itself. -/
theorem c8_ancestor_descendent_consistency (A B : StoredResourceId)
    (hA : A.hrefs ≠ []) :
    (A.is_ancestor_of B = true ↔ B.is_descendent_of A = true) ∧
    (A.is_ancestor_of B = true ↔ (A ≠ B ∧ A.hrefs <:+ B.hrefs)) ∧
    A.is_ancestor_of A = false ∧
    A.is_descendent_of A = false ∧
    (∀ parent href, (StoredResourceId.from_parent parent href).hrefs ≠ []) := by
  refine ⟨?_, ?_, ?_, ?_, ?_⟩
  · unfold StoredResourceId.is_ancestor_of StoredResourceId.is_descendent_of
    by_cases hlen : A.hrefs.length < B.hrefs.length
    · rw [if_neg (by omega), if_neg (by omega)]
      simp [eq_comm]
    · rw [if_pos (by omega), if_pos (by omega)]
  · unfold StoredResourceId.is_ancestor_of
    by_cases hlen : A.hrefs.length < B.hrefs.length
    · rw [if_neg (by omega)]
      have hne : A ≠ B := by
        intro h
        rw [h] at hlen
        omega
      simp only [decide_eq_true_eq]
      rw [eq_comm, py_suffix_slice_eq_iff_suffix hA hlen]
      tauto
    · rw [if_pos (by omega)]
      constructor
      · intro h
        exact absurd h (by simp)
      · rintro ⟨hne, hsuf⟩
        exfalso
        have hle : A.hrefs.length ≤ B.hrefs.length :=
          hsuf.sublist.length_le
        have heq : A.hrefs = B.hrefs :=
          hsuf.sublist.eq_of_length (by omega)
        rcases A with ⟨a⟩
        rcases B with ⟨b⟩
        simp only at heq
        exact hne (by rw [heq])
  · unfold StoredResourceId.is_ancestor_of
    rw [if_pos (le_refl _)]
  · unfold StoredResourceId.is_descendent_of
    rw [if_pos (le_refl _)]
  · intro parent href
    cases parent <;> simp [StoredResourceId.from_parent]

/-- Witness for C8 at concrete identifiers: `/edev` is an ancestor of
`/edev/1/cp` discovered through it. -/
theorem c8_ancestor_descendent_consistency_witness :
    StoredResourceId.is_ancestor_of ⟨["/edev"]⟩ ⟨["/edev/1/cp", "/edev/1", "/edev"]⟩ = true ∧
    StoredResourceId.is_descendent_of ⟨["/edev/1/cp", "/edev/1", "/edev"]⟩ ⟨["/edev"]⟩ = true ∧
    StoredResourceId.is_ancestor_of ⟨["/edev"]⟩ ⟨["/edev"]⟩ = false := by
  have h := c8_ancestor_descendent_consistency ⟨["/edev"]⟩
    ⟨["/edev/1/cp", "/edev/1", "/edev"]⟩ (by decide)
  refine ⟨?_, ?_, ?_⟩
  · exact h.2.1.mpr ⟨by decide, ⟨["/edev/1/cp", "/edev/1"], rfl⟩⟩
  · exact h.1.mp (h.2.1.mpr ⟨by decide, ⟨["/edev/1/cp", "/edev/1"], rfl⟩⟩)
  · exact (c8_ancestor_descendent_consistency ⟨["/edev"]⟩ ⟨["/edev"]⟩ (by decide)).2.2.1

/-! ## C2: the DERControl response state machine -/

/-- C2: `determine_response_status` computes exactly the spec's pseudocode
(`next_response_spec`), and in particular: a sent CANCELLED/SUPERSEDED tag
silences every further response; STARTED is only produced for an Active
event at or past its start, after RECEIVED was sent and before STARTED
was; COMPLETED is only produced for an Active event at or past its end,
after both RECEIVED and STARTED were sent and before COMPLETED was; and
RECEIVED is only produced when it was not yet sent, for a Scheduled or
Active event. -/
theorem c2_determine_response_status (event_status : EventStatusType)
    (anns : StoredResourceAnnotations) (interval_start : Int)
    (interval_duration : Nat) (current_timestamp : Int) :
    determine_response_status event_status anns interval_start interval_duration
        current_timestamp =
      next_response_spec event_status anns interval_start interval_duration
        current_timestamp ∧
    ((hasResponseTag anns ResponseType.EVENT_CANCELLED = true ∨
      hasResponseTag anns ResponseType.EVENT_SUPERSEDED = true) →
      determine_response_status event_status anns interval_start interval_duration
        current_timestamp = none) ∧
    (determine_response_status event_status anns interval_start interval_duration
        current_timestamp = some ResponseType.EVENT_STARTED →
      hasResponseTag anns ResponseType.EVENT_RECEIVED = true ∧
      hasResponseTag anns ResponseType.EVENT_STARTED = false ∧
      current_timestamp ≥ interval_start ∧ event_status = EventStatusType.Active) ∧
    (determine_response_status event_status anns interval_start interval_duration
        current_timestamp = some ResponseType.EVENT_COMPLETED →
      hasResponseTag anns ResponseType.EVENT_RECEIVED = true ∧
      hasResponseTag anns ResponseType.EVENT_STARTED = true ∧
      hasResponseTag anns ResponseType.EVENT_COMPLETED = false ∧
      current_timestamp ≥ interval_start + interval_duration ∧
      event_status = EventStatusType.Active) ∧
    (determine_response_status event_status anns interval_start interval_duration
        current_timestamp = some ResponseType.EVENT_RECEIVED →
      hasResponseTag anns ResponseType.EVENT_RECEIVED = false ∧
      (event_status = EventStatusType.Scheduled ∨
       event_status = EventStatusType.Active)) ∧
    (determine_response_status event_status anns interval_start interval_duration
        current_timestamp = some ResponseType.EVENT_CANCELLED →
      event_status = EventStatusType.Cancelled) ∧
    (determine_response_status event_status anns interval_start interval_duration
        current_timestamp = some ResponseType.EVENT_SUPERSEDED →
      event_status = EventStatusType.Superseded) := by
  refine ⟨?_, ?_, ?_, ?_, ?_, ?_, ?_⟩
  · unfold determine_response_status next_response_spec
    rfl
  · intro h
    unfold determine_response_status
    rcases h with h | h <;> simp [h]
  · intro h
    simp only [determine_response_status] at h
    split_ifs at h with h1 h2 h3 h4 h5 h6 h7 h8 <;> simp_all
  · intro h
    simp only [determine_response_status] at h
    split_ifs at h with h1 h2 h3 h4 h5 h6 h7 h8 <;> simp_all
    exact h7 (by omega)
  · intro h
    simp only [determine_response_status] at h
    split_ifs at h with h1 h2 h3 h4 h5 h6 h7 h8
    all_goals first
      | exact ⟨h4.2, Or.inl h4.1⟩
      | exact ⟨h6, Or.inr h5⟩
      | simp at h
  · intro h
    simp only [determine_response_status] at h
    split_ifs at h with h1 h2 h3 h4 h5 h6 h7 h8
    all_goals first
      | exact h2
      | simp at h
  · intro h
    simp only [determine_response_status] at h
    split_ifs at h with h1 h2 h3 h4 h5 h6 h7 h8
    all_goals first
      | exact h3
      | simp at h

/-- Witness for C2: an Active control past its start with only RECEIVED
sent gets STARTED; the tag-silencing hypothesis holds at a control with a
sent CANCELLED tag. -/
theorem c2_determine_response_status_witness :
    determine_response_status EventStatusType.Active ⟨[ResponseType.EVENT_RECEIVED]⟩
      100 300 250 = some ResponseType.EVENT_STARTED ∧
    determine_response_status EventStatusType.Active
      ⟨[ResponseType.EVENT_CANCELLED]⟩ 100 300 250 = none ∧
    hasResponseTag ⟨[ResponseType.EVENT_RECEIVED]⟩ ResponseType.EVENT_RECEIVED = true := by
  refine ⟨by decide, ?_, by decide⟩
  exact (c2_determine_response_status EventStatusType.Active
    ⟨[ResponseType.EVENT_CANCELLED]⟩ 100 300 250).2.1 (Or.inl (by decide))

/-! ## C3: rate-limit retry (spec-modelled) -/

theorem request_with_retries_all_429 (respond : Nat → Nat) :
    ∀ delays attempt, (∀ k ≤ delays.length, respond (attempt + k) = 429) →
    request_with_retries respond attempt delays = (429, delays) := by
  intro delays
  induction delays with
  | nil =>
    intro attempt h
    have h0 := h 0 (by simp)
    simpa [request_with_retries] using h0
  | cons d rest ih =>
    intro attempt h
    have h0 := h 0 (by simp)
    simp only [Nat.add_zero] at h0
    have hrest : ∀ k ≤ rest.length, respond (attempt + 1 + k) = 429 := by
      intro k hk
      have := h (k + 1) (by simp; omega)
      simpa [Nat.add_comm, Nat.add_assoc, Nat.add_left_comm] using this
    simp [request_with_retries, h0, ih (attempt + 1) hrest]

theorem request_with_retries_first_ok (respond : Nat → Nat) :
    ∀ delays attempt j, j ≤ delays.length →
    (∀ k, k < j → respond (attempt + k) = 429) →
    respond (attempt + j) ≠ 429 →
    request_with_retries respond attempt delays =
      (respond (attempt + j), delays.take j) := by
  intro delays
  induction delays with
  | nil =>
    intro attempt j hj _ _
    have hj0 : j = 0 := by simpa using hj
    subst hj0
    simp [request_with_retries]
  | cons d rest ih =>
    intro attempt j hj h429 hok
    cases j with
    | zero =>
      simp only [Nat.add_zero] at hok
      simp [request_with_retries, hok]
    | succ j0 =>
      have h0 : respond attempt = 429 := by
        have := h429 0 (by omega)
        simpa using this
      have hrest := ih (attempt + 1) j0 (by simpa using hj)
        (fun k hk => by
          have := h429 (k + 1) (by omega)
          simpa [Nat.add_comm, Nat.add_assoc, Nat.add_left_comm] using this)
        (by simpa [Nat.add_comm, Nat.add_assoc, Nat.add_left_comm] using hok)
      have harith : attempt + 1 + j0 = attempt + (j0 + 1) := by omega
      rw [harith] at hrest
      simp [request_with_retries, h0, hrest, List.take_succ_cons]

/-- C3 (spec-modelled): the 429 retry loop of the protocol client.  A
non-429 first response is returned immediately with no sleeps; when the
server keeps answering 429 the client sleeps exactly the fixed schedule
and finally returns the 429 as-is; when the j-th re-issue first succeeds
the client has slept exactly the first j schedule entries; and the
schedule is strictly increasing. -/
theorem c3_rate_limit_retry (respond : Nat → Nat) :
    (respond 0 ≠ 429 → request_for_step_status respond = (respond 0, [])) ∧
    ((∀ k, k ≤ RATE_LIMIT_RETRY_DELAYS.length → respond k = 429) →
      request_for_step_status respond = (429, RATE_LIMIT_RETRY_DELAYS)) ∧
    (∀ j, j ≤ RATE_LIMIT_RETRY_DELAYS.length → (∀ k, k < j → respond k = 429) →
      respond j ≠ 429 →
      request_for_step_status respond = (respond j, RATE_LIMIT_RETRY_DELAYS.take j)) ∧
    List.Chain' (fun a b => a < b) RATE_LIMIT_RETRY_DELAYS := by
  refine ⟨?_, ?_, ?_, by norm_num [RATE_LIMIT_RETRY_DELAYS, List.chain'_cons]⟩
  · intro h
    have := request_with_retries_first_ok respond RATE_LIMIT_RETRY_DELAYS 0 0
      (by simp) (by omega) (by simpa using h)
    simpa [request_for_step_status] using this
  · intro h
    have := request_with_retries_all_429 respond RATE_LIMIT_RETRY_DELAYS 0
      (fun k hk => by simpa using h k hk)
    simpa [request_for_step_status] using this
  · intro j hj h429 hok
    have := request_with_retries_first_ok respond RATE_LIMIT_RETRY_DELAYS 0 j hj
      (fun k hk => by simpa using h429 k hk) (by simpa using hok)
    simpa [request_for_step_status] using this

/-- Witness for C3: a server answering 429 twice then 200 is retried with
sleeps 1s and 2s and finally yields the 200. -/
theorem c3_rate_limit_retry_witness :
    request_for_step_status (fun k => if k < 2 then 429 else 200) = (200, [1, 2]) := by
  have h := (c3_rate_limit_retry (fun k => if k < 2 then 429 else 200)).2.2.1 2
    (by decide) (fun k hk => by interval_cases k <;> decide) (by decide)
  simpa using h

/-! ## C4 / C9: scheduler priority and FIFO tie-breaking -/

theorem peekLoop_eq_bestOf (now : Int) :
    ∀ (l : List StepExecution) (acc : Option StepExecution) (bound : Int),
    peekLoop now l acc bound =
      (match bestOf now l bound with
       | some r => some r
       | none => acc) := by
  intro l
  induction l with
  | nil => intro acc bound; rfl
  | cons se rest ih =>
    intro acc bound
    simp only [peekLoop, bestOf]
    by_cases h1 : notYetExecutable now se
    · rw [if_pos h1, if_pos h1, ih]
    · rw [if_neg h1, if_neg h1]
      by_cases h2 : se.primacy < bound
      · rw [if_pos h2, if_pos h2, ih]
        cases bestOf now rest se.primacy <;> rfl
      · rw [if_neg h2, if_neg h2, ih]

theorem bestOf_some (now : Int) :
    ∀ (l : List StepExecution) (bound : Int) (r : StepExecution),
    bestOf now l bound = some r →
    r ∈ l ∧ notYetExecutable now r = false ∧ r.primacy < bound := by
  intro l
  induction l with
  | nil => intro bound r h; exact absurd h (by simp [bestOf])
  | cons se rest ih =>
    intro bound r h
    simp only [bestOf] at h
    by_cases h1 : notYetExecutable now se
    · rw [if_pos h1] at h
      obtain ⟨hm, he, hp⟩ := ih bound r h
      exact ⟨List.mem_cons_of_mem _ hm, he, hp⟩
    · rw [if_neg h1] at h
      by_cases h2 : se.primacy < bound
      · rw [if_pos h2] at h
        cases hbr : bestOf now rest se.primacy with
        | some r0 =>
          rw [hbr] at h
          obtain ⟨hm, he, hp⟩ := ih _ r (by rw [hbr, ← h])
          exact ⟨List.mem_cons_of_mem _ hm, he, by omega⟩
        | none =>
          rw [hbr] at h
          obtain rfl : se = r := by simpa using h
          exact ⟨List.mem_cons_self _ _, by simpa using h1, h2⟩
      · rw [if_neg h2] at h
        obtain ⟨hm, he, hp⟩ := ih bound r h
        exact ⟨List.mem_cons_of_mem _ hm, he, hp⟩

theorem bestOf_none (now : Int) :
    ∀ (l : List StepExecution) (bound : Int),
    bestOf now l bound = none →
    ∀ se ∈ l, notYetExecutable now se = false → bound ≤ se.primacy := by
  intro l
  induction l with
  | nil => intro bound _ se hm; exact absurd hm (by simp)
  | cons se0 rest ih =>
    intro bound h se hm hexec
    simp only [bestOf] at h
    by_cases h1 : notYetExecutable now se0
    · rw [if_pos h1] at h
      rcases List.mem_cons.mp hm with rfl | hm0
      · rw [h1] at hexec; cases hexec
      · exact ih bound h se hm0 hexec
    · rw [if_neg h1] at h
      by_cases h2 : se0.primacy < bound
      · rw [if_pos h2] at h
        cases hbr : bestOf now rest se0.primacy <;> rw [hbr] at h <;> cases h
      · rw [if_neg h2] at h
        rcases List.mem_cons.mp hm with rfl | hm0
        · omega
        · exact ih bound h se hm0 hexec

theorem bestOf_min (now : Int) :
    ∀ (l : List StepExecution) (bound : Int) (r : StepExecution),
    bestOf now l bound = some r →
    ∀ se ∈ l, notYetExecutable now se = false → r.primacy ≤ se.primacy := by
  intro l
  induction l with
  | nil => intro bound r h; exact absurd h (by simp [bestOf])
  | cons se0 rest ih =>
    intro bound r h se hm hexec
    simp only [bestOf] at h
    by_cases h1 : notYetExecutable now se0
    · rw [if_pos h1] at h
      rcases List.mem_cons.mp hm with rfl | hm0
      · rw [h1] at hexec; cases hexec
      · exact ih bound r h se hm0 hexec
    · rw [if_neg h1] at h
      by_cases h2 : se0.primacy < bound
      · rw [if_pos h2] at h
        cases hbr : bestOf now rest se0.primacy with
        | some r0 =>
          rw [hbr] at h
          have hr : r0 = r := by simpa using h
          have hrp := (bestOf_some now rest se0.primacy r0 hbr).2.2
          rw [hr] at hrp
          rcases List.mem_cons.mp hm with rfl | hm0
          · omega
          · have := ih _ r0 hbr se hm0 hexec
            rw [hr] at this
            exact this
        | none =>
          rw [hbr] at h
          have hr : se0 = r := by simpa using h
          have heq : se0.primacy = r.primacy := by rw [hr]
          rcases List.mem_cons.mp hm with rfl | hm0
          · omega
          · have := bestOf_none now rest se0.primacy hbr se hm0 hexec
            omega
      · rw [if_neg h2] at h
        rcases List.mem_cons.mp hm with rfl | hm0
        · have hrp := (bestOf_some now rest bound r h).2.2
          omega
        · exact ih bound r h se hm0 hexec

theorem bestOf_split (now : Int) :
    ∀ (l : List StepExecution) (bound : Int) (r : StepExecution),
    bestOf now l bound = some r →
    ∃ l1 l2, l = l1 ++ r :: l2 ∧
      ∀ x ∈ l1, notYetExecutable now x = false → r.primacy < x.primacy := by
  intro l
  induction l with
  | nil => intro bound r h; exact absurd h (by simp [bestOf])
  | cons se0 rest ih =>
    intro bound r h
    simp only [bestOf] at h
    by_cases h1 : notYetExecutable now se0
    · rw [if_pos h1] at h
      obtain ⟨l1, l2, hl, hfirst⟩ := ih bound r h
      refine ⟨se0 :: l1, l2, by simp [hl], ?_⟩
      intro x hx hexec
      rcases List.mem_cons.mp hx with rfl | hx0
      · rw [h1] at hexec; cases hexec
      · exact hfirst x hx0 hexec
    · rw [if_neg h1] at h
      by_cases h2 : se0.primacy < bound
      · rw [if_pos h2] at h
        cases hbr : bestOf now rest se0.primacy with
        | some r0 =>
          rw [hbr] at h
          have hr : r0 = r := by simpa using h
          obtain ⟨l1, l2, hl, hfirst⟩ := ih _ r0 hbr
          have hrp := (bestOf_some now rest se0.primacy r0 hbr).2.2
          rw [hr] at hl hfirst hrp
          refine ⟨se0 :: l1, l2, by simp [hl], ?_⟩
          intro x hx hexec
          rcases List.mem_cons.mp hx with rfl | hx0
          · omega
          · exact hfirst x hx0 hexec
        | none =>
          rw [hbr] at h
          have hr : se0 = r := by simpa using h
          exact ⟨[], rest, by simp [hr], by simp⟩
      · rw [if_neg h2] at h
        obtain ⟨l1, l2, hl, hfirst⟩ := ih bound r h
        have hrp := (bestOf_some now rest bound r h).2.2
        refine ⟨se0 :: l1, l2, by simp [hl], ?_⟩
        intro x hx hexec
        rcases List.mem_cons.mp hx with rfl | hx0
        · omega
        · exact hfirst x hx0 hexec

/-- C4 (amended with the `MAX_PRIMACY` bound the source builds in): when at
least one queued step execution is executable (`not_before` unset or `≤
now`) with primacy below `MAX_PRIMACY`, `peek` returns an executable entry
whose primacy is minimal among all executable entries (in particular
strictly below every executable entry of different primacy), and `pop`
returns it and removes exactly that element. -/
theorem c4_scheduler_priority (now : Int) (items : List StepExecution)
    (se : StepExecution) (h1 : se ∈ items) (h2 : notYetExecutable now se = false)
    (h3 : se.primacy < MAX_PRIMACY) :
    ∃ r, peek now items = some r ∧ r ∈ items ∧ notYetExecutable now r = false ∧
      (∀ x ∈ items, notYetExecutable now x = false → r.primacy ≤ x.primacy) ∧
      (∀ x ∈ items, notYetExecutable now x = false → x.primacy ≠ r.primacy →
        r.primacy < x.primacy) ∧
      pop now items = (some r, items.erase r) := by
  have hpeek : peek now items =
      (match bestOf now items MAX_PRIMACY with
       | some r => some r
       | none => none) := peekLoop_eq_bestOf now items none MAX_PRIMACY
  cases hbr : bestOf now items MAX_PRIMACY with
  | none =>
    exfalso
    have := bestOf_none now items MAX_PRIMACY hbr se h1 h2
    omega
  | some r =>
    rw [hbr] at hpeek
    obtain ⟨hm, hexec, _⟩ := bestOf_some now items MAX_PRIMACY r hbr
    have hmin := bestOf_min now items MAX_PRIMACY r hbr
    refine ⟨r, hpeek, hm, hexec, hmin, ?_, ?_⟩
    · intro x hx hexecx hne
      have := hmin x hx hexecx
      omega
    · unfold pop
      rw [hpeek]

/-- Witness for C4 at a concrete queue: of two executable entries with
primacies 7 and 3, peek selects the one with primacy 3 and pop removes
it. -/
theorem c4_scheduler_priority_witness :
    peek 0 [⟨1, "a", "a", 7, 0, none, 0⟩, ⟨2, "b", "b", 3, 0, none, 0⟩] =
      some ⟨2, "b", "b", 3, 0, none, 0⟩ ∧
    pop 0 [⟨1, "a", "a", 7, 0, none, 0⟩, ⟨2, "b", "b", 3, 0, none, 0⟩] =
      (some ⟨2, "b", "b", 3, 0, none, 0⟩, [⟨1, "a", "a", 7, 0, none, 0⟩]) := by
  obtain ⟨r, hpeek, hm, hexec, hmin, hstrict, hpop⟩ :=
    c4_scheduler_priority 0 [⟨1, "a", "a", 7, 0, none, 0⟩, ⟨2, "b", "b", 3, 0, none, 0⟩]
      ⟨2, "b", "b", 3, 0, none, 0⟩ (by decide) (by decide) (by decide)
  have hr : r = ⟨2, "b", "b", 3, 0, none, 0⟩ := by
    rcases List.mem_cons.mp hm with rfl | hm0
    · exfalso
      have := hmin ⟨2, "b", "b", 3, 0, none, 0⟩ (by decide) (by decide)
      simp at this
    · simpa using hm0
  subst hr
  exact ⟨hpeek, by simpa using hpop⟩

/-- C4 as frozen is refuted by the built-in primacy cutoff: an executable
entry whose primacy equals 0xEFFFFFFF is never selected, so a non-empty
all-executable queue can still make `peek` return `none` and `pop` remove
nothing. -/
theorem c4_counterexample :
    notYetExecutable 0 (⟨1, "a", "a", 0xEFFFFFFF, 0, none, 0⟩ : StepExecution) = false ∧
    peek 0 [⟨1, "a", "a", 0xEFFFFFFF, 0, none, 0⟩] = none ∧
    pop 0 [⟨1, "a", "a", 0xEFFFFFFF, 0, none, 0⟩] =
      (none, [⟨1, "a", "a", 0xEFFFFFFF, 0, none, 0⟩]) := by
  decide

/-- C9 (amended with the same `MAX_PRIMACY` bound): when an executable
entry attains the minimal primacy of the executable entries and that
primacy is below `MAX_PRIMACY`, `peek` returns the earliest-added entry
among them — everything before the returned entry in insertion order is
either not yet executable or of strictly larger primacy — and `pop`
removes exactly that earliest occurrence. -/
theorem c9_scheduler_fifo (now : Int) (items : List StepExecution)
    (se : StepExecution) (h1 : se ∈ items) (h2 : notYetExecutable now se = false)
    (h3 : se.primacy < MAX_PRIMACY)
    (hmin : ∀ x ∈ items, notYetExecutable now x = false → se.primacy ≤ x.primacy) :
    ∃ r l1 l2, peek now items = some r ∧ r.primacy = se.primacy ∧
      notYetExecutable now r = false ∧ items = l1 ++ r :: l2 ∧
      (∀ x ∈ l1, notYetExecutable now x = false → se.primacy < x.primacy) ∧
      pop now items = (some r, l1 ++ l2) := by
  have hpeek0 : peek now items =
      (match bestOf now items MAX_PRIMACY with
       | some r => some r
       | none => none) := peekLoop_eq_bestOf now items none MAX_PRIMACY
  cases hbr : bestOf now items MAX_PRIMACY with
  | none =>
    exfalso
    have := bestOf_none now items MAX_PRIMACY hbr se h1 h2
    omega
  | some r =>
    rw [hbr] at hpeek0
    obtain ⟨hm, hexec, _⟩ := bestOf_some now items MAX_PRIMACY r hbr
    have hminr := bestOf_min now items MAX_PRIMACY r hbr
    have hrp : r.primacy = se.primacy :=
      le_antisymm (hminr se h1 h2) (hmin r hm hexec)
    obtain ⟨l1, l2, hl, hfirst⟩ := bestOf_split now items MAX_PRIMACY r hbr
    have hne : ∀ x ∈ l1, x ≠ r := by
      intro x hx hxr
      subst hxr
      have := hfirst x hx hexec
      omega
    have hpeek1 : peek now items = some r := by rw [hpeek0]
    refine ⟨r, l1, l2, hpeek1, hrp, hexec, hl, ?_, ?_⟩
    · intro x hx hexecx
      have := hfirst x hx hexecx
      omega
    · unfold pop
      rw [hpeek1, hl]
      have hnotmem : r ∉ l1 := fun hmem => hne r hmem rfl
      show (some r, (l1 ++ r :: l2).erase r) = (some r, l1 ++ l2)
      rw [List.erase_append_right _ hnotmem, List.erase_cons_head]

/-- Witness for C9 at a concrete queue: entries with primacies 5, 3
(delayed past now), 3, 3; of the two executable primacy-3 entries the
earlier-added one is peeked and popped. -/
theorem c9_scheduler_fifo_witness :
    peek 0 [⟨1, "a", "a", 5, 0, none, 0⟩, ⟨2, "b", "b", 3, 0, some 10, 0⟩,
        ⟨3, "c", "c", 3, 0, none, 0⟩, ⟨4, "d", "d", 3, 0, none, 0⟩] =
      some ⟨3, "c", "c", 3, 0, none, 0⟩ ∧
    pop 0 [⟨1, "a", "a", 5, 0, none, 0⟩, ⟨2, "b", "b", 3, 0, some 10, 0⟩,
        ⟨3, "c", "c", 3, 0, none, 0⟩, ⟨4, "d", "d", 3, 0, none, 0⟩] =
      (some ⟨3, "c", "c", 3, 0, none, 0⟩,
       [⟨1, "a", "a", 5, 0, none, 0⟩, ⟨2, "b", "b", 3, 0, some 10, 0⟩,
        ⟨4, "d", "d", 3, 0, none, 0⟩]) := by
  obtain ⟨r, l1, l2, hpeek, hrp, hexec, hsplit, hfirst, hpop⟩ :=
    c9_scheduler_fifo 0
      [⟨1, "a", "a", 5, 0, none, 0⟩, ⟨2, "b", "b", 3, 0, some 10, 0⟩,
       ⟨3, "c", "c", 3, 0, none, 0⟩, ⟨4, "d", "d", 3, 0, none, 0⟩]
      ⟨3, "c", "c", 3, 0, none, 0⟩ (by decide) (by decide) (by decide) (by decide)
  have hd : peek 0 [⟨1, "a", "a", 5, 0, none, 0⟩, ⟨2, "b", "b", 3, 0, some 10, 0⟩,
      ⟨3, "c", "c", 3, 0, none, 0⟩, ⟨4, "d", "d", 3, 0, none, 0⟩] =
      some ⟨3, "c", "c", 3, 0, none, 0⟩ := by decide
  have hr : r = ⟨3, "c", "c", 3, 0, none, 0⟩ :=
    Option.some.inj (hpeek.symm.trans hd)
  subst hr
  have hd2 : pop 0 [⟨1, "a", "a", 5, 0, none, 0⟩, ⟨2, "b", "b", 3, 0, some 10, 0⟩,
      ⟨3, "c", "c", 3, 0, none, 0⟩, ⟨4, "d", "d", 3, 0, none, 0⟩] =
      (some ⟨3, "c", "c", 3, 0, none, 0⟩,
       [⟨1, "a", "a", 5, 0, none, 0⟩, ⟨2, "b", "b", 3, 0, some 10, 0⟩,
        ⟨4, "d", "d", 3, 0, none, 0⟩]) := by decide
  exact ⟨hd, hd2⟩

/-- C9 as frozen is refuted by the same primacy cutoff as C4: two
executable entries sharing the minimal primacy 0xEFFFFFFF make `peek`
return `none` rather than the earlier-added of the two. -/
theorem c9_counterexample :
    notYetExecutable 0 (⟨1, "a", "a", 0xEFFFFFFF, 0, none, 0⟩ : StepExecution) = false ∧
    notYetExecutable 0 (⟨2, "b", "b", 0xEFFFFFFF, 0, none, 0⟩ : StepExecution) = false ∧
    peek 0 [⟨1, "a", "a", 0xEFFFFFFF, 0, none, 0⟩,
        ⟨2, "b", "b", 0xEFFFFFFF, 0, none, 0⟩] = none := by
  decide

/-! ## C7: get_property_changes tolerances -/

/-- C7: the overall diff is empty exactly when no key produces a per-key
difference; a non-None submitted value produces no difference for its key
exactly when the refetched value is equal, or the submitted value is a
list, or the string / postRate / time tolerances apply; any other
divergence is rendered as `<key> had <src> changed to <rec>`; and a
submitted `postRate=60` answered by `postRate=30` yields no differences at
all. -/
theorem c7_get_property_changes :
    (∀ source returned : List (String × PyVal),
      (get_property_changes source returned = none ↔
        ∀ kv ∈ source, diff_for_key kv.1 kv.2 (py_getattr returned kv.1) = none)) ∧
    (∀ (key : String) (sv rv : PyVal), sv ≠ PyVal.pynone →
      (diff_for_key key sv rv = none ↔
        (rv = sv ∨ (∃ t, sv = PyVal.pylist t) ∨
          (∃ a b, sv = PyVal.pystr a ∧ rv = PyVal.pystr b ∧
            ((str_upper a).data <:+ (str_upper b).data ∨
             (str_upper b).data <:+ (str_upper a).data)) ∨
          key = "postRate" ∨
          (∃ a b, sv = PyVal.pyint a ∧ rv = PyVal.pyint b ∧
            list_contains_sub "time".data (str_lower key).data = true ∧
            (a - b).natAbs ≤ MAX_TIME_DRIFT_SECONDS)))) ∧
    (∀ (key : String) (sv rv : PyVal), diff_for_key key sv rv ≠ none →
      diff_for_key key sv rv =
        some (key ++ " had " ++ pyStr sv ++ " changed to " ++ pyStr rv)) ∧
    get_property_changes [("postRate", PyVal.pyint 60)] [("postRate", PyVal.pyint 30)] =
      none := by
  refine ⟨?_, ?_, ?_, by decide⟩
  · intro source returned
    unfold get_property_changes
    constructor
    · intro h kv hkv
      by_cases hall : (source.filterMap
          (fun kv => diff_for_key kv.1 kv.2 (py_getattr returned kv.1))).isEmpty
      · rw [List.isEmpty_iff] at hall
        rw [List.filterMap_eq_nil] at hall
        exact hall kv hkv
      · rw [if_neg hall] at h
        cases h
    · intro h
      have hall : (source.filterMap
          (fun kv => diff_for_key kv.1 kv.2 (py_getattr returned kv.1))).isEmpty := by
        rw [List.isEmpty_iff, List.filterMap_eq_nil]
        exact h
      rw [if_pos hall]
  · intro key sv rv hsv
    unfold diff_for_key
    rw [if_neg hsv]
    constructor
    · intro h
      by_cases h1 : sv = rv
      · exact Or.inl h1.symm
      rw [if_neg h1] at h
      by_cases h2 : isPyList sv = true
      · refine Or.inr (Or.inl ?_)
        cases sv <;> simp_all [isPyList]
      rw [if_neg (by simpa using h2)] at h
      by_cases h3 : strTolerant sv rv = true
      · refine Or.inr (Or.inr (Or.inl ?_))
        cases sv <;> cases rv <;> simp_all [strTolerant] <;> tauto
      rw [if_neg (by simpa using h3)] at h
      by_cases h4 : key = "postRate"
      · exact Or.inr (Or.inr (Or.inr (Or.inl h4)))
      rw [if_neg h4] at h
      by_cases h5 : timeTolerant key sv rv = true
      · refine Or.inr (Or.inr (Or.inr (Or.inr ?_)))
        cases sv <;> cases rv <;> simp_all [timeTolerant]
      rw [if_neg (by simpa using h5)] at h
      cases h
    · intro h
      rcases h with h | ⟨t, rfl⟩ | ⟨a, b, rfl, rfl, hsuf⟩ | h | ⟨a, b, rfl, rfl, hin, hd⟩
      · rw [if_pos h.symm]
      · by_cases h1 : PyVal.pylist t = rv
        · rw [if_pos h1]
        · rw [if_neg h1, if_pos (by simp [isPyList])]
      · by_cases h1 : PyVal.pystr a = PyVal.pystr b
        · rw [if_pos h1]
        · rw [if_neg h1, if_neg (by simp [isPyList]),
            if_pos (by simp [strTolerant]; tauto)]
      · by_cases h1 : sv = rv
        · rw [if_pos h1]
        · rw [if_neg h1]
          by_cases h2 : isPyList sv = true
          · rw [if_pos h2]
          · rw [if_neg (by simpa using h2)]
            by_cases h3 : strTolerant sv rv = true
            · rw [if_pos h3]
            · rw [if_neg (by simpa using h3), if_pos h]
      · by_cases h1 : PyVal.pyint a = PyVal.pyint b
        · rw [if_pos h1]
        · rw [if_neg h1, if_neg (by simp [isPyList]),
            if_neg (by simp [strTolerant])]
          by_cases h4 : key = "postRate"
          · rw [if_pos h4]
          · rw [if_neg h4, if_pos (by simp [timeTolerant]; exact ⟨hin, hd⟩)]
  · intro key sv rv h
    unfold diff_for_key at h ⊢
    split_ifs at h ⊢ <;> first
      | rfl
      | (exfalso; exact h rfl)

/-- Witness for C7: a changed integer under a non-tolerated key is rendered
as the claim states, via the theorem's difference-format conjunct; the
postRate example needs no hypothesis. -/
theorem c7_get_property_changes_witness :
    diff_for_key "setGradW" (PyVal.pyint 27) (PyVal.pyint 6) =
      some "setGradW had 27 changed to 6" ∧
    (diff_for_key "postRate" (PyVal.pyint 60) (PyVal.pyint 30) = none ↔
      (PyVal.pyint 30 = PyVal.pyint 60 ∨ (∃ t, PyVal.pyint 60 = PyVal.pylist t) ∨
        (∃ a b, PyVal.pyint 60 = PyVal.pystr a ∧ PyVal.pyint 30 = PyVal.pystr b ∧
          ((str_upper a).data <:+ (str_upper b).data ∨
           (str_upper b).data <:+ (str_upper a).data)) ∨
        ("postRate" : String) = "postRate" ∨
        (∃ a b, PyVal.pyint 60 = PyVal.pyint a ∧ PyVal.pyint 30 = PyVal.pyint b ∧
          list_contains_sub "time".data (str_lower "postRate").data = true ∧
          (a - b).natAbs ≤ MAX_TIME_DRIFT_SECONDS))) := by
  constructor
  · exact c7_get_property_changes.2.2.1 "setGradW" (PyVal.pyint 27) (PyVal.pyint 6)
      (by decide)
  · exact c7_get_property_changes.2.1 "postRate" (PyVal.pyint 60) (PyVal.pyint 30)
      (by decide)

/-! ## C6: list pagination -/

theorem map_range_one {β : Type} (f : Nat → β) : (List.range 1).map f = [f 0] := by
  rw [List.range_succ]
  simp

theorem paginate_loop_trace {α : Type} (pages : Nat → Sep2Page α) (href : String)
    (p m : Nat) :
    ∀ fuel k s, ∃ n, 0 < n ∧
      (paginate_loop pages href p m fuel k s).1 =
        (List.range n).map
          (fun j => href ++ build_paging_params (some (s + j * p)) (some p) none) := by
  intro fuel
  induction fuel with
  | zero =>
    intro k s
    refine ⟨1, Nat.one_pos, ?_⟩
    rw [paginate_loop]
    split_ifs <;> simp [map_range_one]
  | succ fuel ih =>
    intro k s
    rw [paginate_loop]
    by_cases hempty : ((fetch_list_page (pages k)).1).isEmpty
    · refine ⟨1, Nat.one_pos, ?_⟩
      rw [if_pos hempty]
      simp [map_range_one]
    · rw [if_neg hempty]
      by_cases hmax : k + 1 ≥ m
      · refine ⟨1, Nat.one_pos, ?_⟩
        rw [if_pos hmax]
        simp [map_range_one]
      · rw [if_neg hmax]
        obtain ⟨n, hn, htr⟩ := ih (k + 1) (s + p)
        refine ⟨n + 1, by omega, ?_⟩
        simp only [List.range_succ_eq_map, List.map_cons, List.map_map]
        rw [htr]
        simp only [Nat.zero_mul, Nat.add_zero]
        congr 1
        apply List.map_congr_left
        intro j _
        simp only [Function.comp_apply]
        have h1 : s + p + j * p = s + (j + 1) * p := by ring
        have h2 : s + p + p * j = s + p * (j + 1) := by ring
        simp [Nat.succ_eq_add_one, h1, h2]

theorem paginate_loop_ok {α : Type} (pages : Nat → Sep2Page α) (href : String)
    (p m : Nat) :
    ∀ e fuel k s, m ≤ fuel + k → k + e < m →
    ((pages (k + e)).items.getD []).isEmpty = true →
    (∀ j, j < e → ((pages (k + j)).items.getD []).isEmpty = false) →
    ∃ alls,
      (paginate_loop pages href p m fuel k s).2.2 =
        Except.ok
          (((List.range (e + 1)).map (fun j => (pages (k + j)).items.getD [])).join,
           alls) ∧
      (paginate_loop pages href p m fuel k s).1.length = e + 1 := by
  intro e
  induction e with
  | zero =>
    intro fuel k s _ _ hempty _
    have hfe : ((fetch_list_page (pages k)).1).isEmpty := by
      simpa [fetch_list_page] using hempty
    have hnil : (pages k).items.getD [] = [] := by
      have := List.isEmpty_iff.mp hfe
      simpa [fetch_list_page] using this
    cases fuel with
    | zero =>
      rw [paginate_loop, if_pos hfe]
      refine ⟨match (pages k).all_ with | some a => [a] | none => [], ?_, by simp⟩
      simp [fetch_list_page, hnil]
    | succ fuel =>
      rw [paginate_loop, if_pos hfe]
      refine ⟨match (pages k).all_ with | some a => [a] | none => [], ?_, by simp⟩
      simp [fetch_list_page, hnil]
  | succ e ih =>
    intro fuel k s hfuel hlt hempty hnonempty
    cases fuel with
    | zero => omega
    | succ fuel =>
      rw [paginate_loop]
      have hfe : ((fetch_list_page (pages k)).1).isEmpty = false := by
        have := hnonempty 0 (by omega)
        simpa [fetch_list_page] using this
      rw [if_neg (by simp [hfe])]
      rw [if_neg (by omega)]
      obtain ⟨alls, hok, hlen⟩ := ih fuel (k + 1) (s + p) (by omega) (by omega)
        (by
          have : k + 1 + e = k + (e + 1) := by omega
          rw [this]
          exact hempty)
        (by
          intro j hj
          have : k + 1 + j = k + (j + 1) := by omega
          rw [this]
          exact hnonempty (j + 1) (by omega))
      refine ⟨(match (pages k).all_ with | some a => [a] | none => []) ++ alls, ?_, ?_⟩
      · simp only [hok]
        have hjoin :
            ((List.range (e + 1 + 1)).map
              (fun j => (pages (k + j)).items.getD [])).join =
            (pages k).items.getD [] ++
              ((List.range (e + 1)).map
                (fun j => (pages (k + 1 + j)).items.getD [])).join := by
          rw [List.range_succ_eq_map]
          simp only [List.map_cons, List.map_map, List.join_cons, Nat.add_zero]
          congr 2
          apply List.map_congr_left
          intro j _
          simp only [Function.comp_apply]
          have heq : k + Nat.succ j = k + 1 + j := by omega
          rw [heq]
        rw [hjoin]
        simp [fetch_list_page]
      · simp only [List.length_cons, hlen]

theorem paginate_loop_max_pages {α : Type} (pages : Nat → Sep2Page α) (href : String)
    (p m : Nat) :
    ∀ fuel k s, m ≤ fuel + k → k < m →
    (∀ j, k + j < m → ((pages (k + j)).items.getD []).isEmpty = false) →
    (paginate_loop pages href p m fuel k s).2.2 =
      Except.error (ClientError.request "Paginating exceeded max pages") := by
  intro fuel
  induction fuel with
  | zero =>
    intro k s hfuel hk _
    omega
  | succ fuel ih =>
    intro k s hfuel hk hnonempty
    rw [paginate_loop]
    have hfe : ((fetch_list_page (pages k)).1).isEmpty = false := by
      have := hnonempty 0 (by omega)
      simpa [fetch_list_page] using this
    rw [if_neg (by simp [hfe])]
    by_cases hmax : k + 1 ≥ m
    · rw [if_pos hmax]
    · rw [if_neg hmax]
      have hrest := ih (k + 1) (s + p) (by omega) (by omega)
        (by
          intro j hj
          have : k + 1 + j = k + (j + 1) := by omega
          rw [this]
          exact hnonempty (j + 1) (by omega))
      simp only [hrest]

theorem paginate_loop_items_only {α : Type} (pages pages2 : Nat → Sep2Page α)
    (hsame : ∀ n, (pages2 n).items = (pages n).items) (href : String) (p m : Nat) :
    ∀ fuel k s,
      (paginate_loop pages2 href p m fuel k s).1 =
        (paginate_loop pages href p m fuel k s).1 ∧
      Except.map (fun x => x.1) (paginate_loop pages2 href p m fuel k s).2.2 =
        Except.map (fun x => x.1) (paginate_loop pages href p m fuel k s).2.2 := by
  intro fuel
  induction fuel with
  | zero =>
    intro k s
    rw [paginate_loop, paginate_loop]
    have hit : (fetch_list_page (pages2 k)).1 = (fetch_list_page (pages k)).1 := by
      simp [fetch_list_page, hsame k]
    rw [hit]
    split_ifs <;> simp [Except.map, hit]
  | succ fuel ih =>
    intro k s
    rw [paginate_loop, paginate_loop]
    have hit : (fetch_list_page (pages2 k)).1 = (fetch_list_page (pages k)).1 := by
      simp [fetch_list_page, hsame k]
    rw [hit]
    split_ifs with h1 h2
    · simp [Except.map, hit]
    · simp [Except.map]
    · obtain ⟨htr, hmap⟩ := ih (k + 1) (s + p)
      refine ⟨by simp [htr], ?_⟩
      cases hc2 : (paginate_loop pages2 href p m fuel (k + 1) (s + p)).2.2 with
      | error e =>
        cases hc : (paginate_loop pages href p m fuel (k + 1) (s + p)).2.2 with
        | error e0 =>
          rw [hc2, hc] at hmap
          simp only [Except.map] at hmap
          cases hmap
          simp [hc2, hc]
        | ok v =>
          rw [hc2, hc] at hmap
          simp [Except.map] at hmap
      | ok v2 =>
        cases hc : (paginate_loop pages href p m fuel (k + 1) (s + p)).2.2 with
        | error e0 =>
          rw [hc2, hc] at hmap
          simp [Except.map] at hmap
        | ok v =>
          rw [hc2, hc] at hmap
          simp only [Except.map] at hmap
          have hv : v2.1 = v.1 := by simpa using hmap
          simp [Except.map, hc2, hc, hv]

theorem paginate_result_trace {α : Type} (pages : Nat → Sep2Page α)
    (list_href : String) (page_size max_pages : Nat) :
    (paginate_list_resource_items pages list_href page_size max_pages).1 =
      (paginate_loop pages list_href page_size max_pages max_pages 0 0).1 := by
  unfold paginate_list_resource_items
  cases hx : (paginate_loop pages list_href page_size max_pages max_pages 0 0).2.2 with
  | error e => simp [hx]
  | ok v => simp [hx]

/-- C6: pagination requests offsets `0, p, 2p, ...`; it succeeds with the
concatenation of all page items exactly when an empty page arrives before
`max_pages_requested` non-empty pages have been fetched; it raises the
max-pages `RequestException` when the first `max_pages_requested` pages
are all non-empty; the `results`/`all` attributes never influence the
requests made or the returned result (divergences only log warnings); and
on the claim's own instance — pages reporting `all=3` while only 2 items
arrive in total — exactly one warning is logged and the call still
succeeds. -/
theorem c6_paginate_list_resource_items (α : Type) (pages : Nat → Sep2Page α)
    (list_href : String) (page_size max_pages : Nat) :
    (∃ n, 0 < n ∧
      (paginate_list_resource_items pages list_href page_size max_pages).1 =
        (List.range n).map (fun j =>
          list_href ++ build_paging_params (some (j * page_size)) (some page_size) none)) ∧
    (∀ e, e < max_pages → ((pages e).items.getD []).isEmpty = true →
      (∀ j, j < e → ((pages j).items.getD []).isEmpty = false) →
      (paginate_list_resource_items pages list_href page_size max_pages).2.2 =
        Except.ok
          (((List.range (e + 1)).map (fun j => (pages j).items.getD [])).join) ∧
      (paginate_list_resource_items pages list_href page_size max_pages).1.length =
        e + 1) ∧
    (0 < max_pages →
      (∀ j, j < max_pages → ((pages j).items.getD []).isEmpty = false) →
      (paginate_list_resource_items pages list_href page_size max_pages).2.2 =
        Except.error (ClientError.request "Paginating exceeded max pages")) ∧
    (∀ pages2 : Nat → Sep2Page α, (∀ n, (pages2 n).items = (pages n).items) →
      (paginate_list_resource_items pages2 list_href page_size max_pages).1 =
        (paginate_list_resource_items pages list_href page_size max_pages).1 ∧
      (paginate_list_resource_items pages2 list_href page_size max_pages).2.2 =
        (paginate_list_resource_items pages list_href page_size max_pages).2.2) ∧
    ((paginate_list_resource_items
        (fun n => if n = 0 then ⟨some [10, 20], some 2, some 3⟩
          else ⟨some [], some 0, some 3⟩ : Nat → Sep2Page Nat) "/edev" 2 20).2.1 =
      [PageWarning.allCountMismatch] ∧
     (paginate_list_resource_items
        (fun n => if n = 0 then ⟨some [10, 20], some 2, some 3⟩
          else ⟨some [], some 0, some 3⟩ : Nat → Sep2Page Nat) "/edev" 2 20).2.2 =
      Except.ok [10, 20]) := by
  refine ⟨?_, ?_, ?_, ?_, by decide⟩
  · obtain ⟨n, hn, htr⟩ :=
      paginate_loop_trace pages list_href page_size max_pages max_pages 0 0
    refine ⟨n, hn, ?_⟩
    rw [paginate_result_trace, htr]
    apply List.map_congr_left
    intro j _
    rw [Nat.zero_add]
  · intro e he hempty hnonempty
    obtain ⟨alls, hok, hlen⟩ :=
      paginate_loop_ok pages list_href page_size max_pages e max_pages 0 0
        (by omega) (by omega) (by simpa using hempty)
        (fun j hj => by simpa using hnonempty j hj)
    constructor
    · simp only [Nat.zero_add] at hok
      simp only [paginate_list_resource_items, hok]
    · rw [paginate_result_trace]
      exact hlen
  · intro hm hnonempty
    have herr :=
      paginate_loop_max_pages pages list_href page_size max_pages max_pages 0 0
        (by omega) hm (fun j hj => by simpa using hnonempty j (by omega))
    simp only [paginate_list_resource_items, herr]
  · intro pages2 hsame
    obtain ⟨htr, hmap⟩ :=
      paginate_loop_items_only pages pages2 hsame list_href page_size max_pages
        max_pages 0 0
    constructor
    · rw [paginate_result_trace, paginate_result_trace, htr]
    · unfold paginate_list_resource_items
      cases hc2 : (paginate_loop pages2 list_href page_size max_pages
          max_pages 0 0).2.2 with
      | error e =>
        cases hc : (paginate_loop pages list_href page_size max_pages
            max_pages 0 0).2.2 with
        | error e0 =>
          rw [hc2, hc] at hmap
          simp only [Except.map] at hmap
          cases hmap
          simp [hc2, hc]
        | ok v =>
          rw [hc2, hc] at hmap
          simp [Except.map] at hmap
      | ok v2 =>
        cases hc : (paginate_loop pages list_href page_size max_pages
            max_pages 0 0).2.2 with
        | error e0 =>
          rw [hc2, hc] at hmap
          simp [Except.map] at hmap
        | ok v =>
          rw [hc2, hc] at hmap
          simp only [Except.map] at hmap
          have hv : v2.1 = v.1 := by simpa using hmap
          obtain ⟨i2, a2⟩ := v2
          obtain ⟨i, a⟩ := v
          simp only at hv
          subst hv
          simp [hc2, hc]

/-- Witness for C6: on the claim's `all=3` pages the success conjunct of
the theorem applies with the empty page arriving as page 1, giving the two
items back after exactly two requests. -/
theorem c6_paginate_list_resource_items_witness :
    (paginate_list_resource_items
      (fun n => if n = 0 then ⟨some [10, 20], some 2, some 3⟩
        else ⟨some [], some 0, some 3⟩ : Nat → Sep2Page Nat) "/edev" 2 20).2.2 =
      Except.ok [10, 20] ∧
    (paginate_list_resource_items
      (fun n => if n = 0 then ⟨some [10, 20], some 2, some 3⟩
        else ⟨some [], some 0, some 3⟩ : Nat → Sep2Page Nat) "/edev" 2 20).1.length =
      2 := by
  have h := (c6_paginate_list_resource_items Nat
    (fun n => if n = 0 then ⟨some [10, 20], some 2, some 3⟩
      else ⟨some [], some 0, some 3⟩) "/edev" 2 20).2.1 1
    (by decide) (by decide) (fun j hj => by interval_cases j <;> decide)
  refine ⟨?_, h.2⟩
  rw [h.1]
  decide

/-- C6 as frozen is refuted at the max-pages boundary: a server with
exactly 20 non-empty pages followed by an empty page never hands out more
than 20 non-empty pages, yet the paginator raises the max-pages
`RequestException` (it raises as soon as the 20th non-empty page has been
fetched, before requesting the empty page that would have ended the
loop). -/
theorem c6_counterexample :
    ((fun n => if n < 20 then ⟨some [n], some 1, some 20⟩
        else ⟨some [], some 0, some 20⟩ : Nat → Sep2Page Nat) 20).items.getD [] =
      [] ∧
    List.all (List.range 20) (fun n =>
      !(((fun n => if n < 20 then ⟨some [n], some 1, some 20⟩
          else ⟨some [], some 0, some 20⟩ : Nat → Sep2Page Nat) n).items.getD
        []).isEmpty) = true ∧
    (paginate_list_resource_items
      (fun n => if n < 20 then ⟨some [n], some 1, some 20⟩
        else ⟨some [], some 0, some 20⟩ : Nat → Sep2Page Nat) "/edev" 1 20).2.2 =
      Except.error (ClientError.request "Paginating exceeded max pages") := by
  decide

/-! ## C1 / C10: the resource store -/

theorem from_resource_ok (type : CSIPAusResource) (parent : Option StoredResourceId)
    (resource : ResourceData) (now : Int) (nr : StoredResource)
    (h : StoredResource.from_resource type parent resource now = Except.ok nr) :
    opResourceId parent resource = some nr.id ∧ nr.resource_type = type := by
  unfold StoredResource.from_resource at h
  unfold opResourceId
  cases hh : resource.href with
  | none => rw [hh] at h; cases h
  | some str =>
    rw [hh] at h
    dsimp only at h ⊢
    by_cases hs : str = ""
    · rw [if_pos hs] at h; cases h
    · rw [if_neg hs] at h
      rw [if_neg hs]
      cases h
      exact ⟨rfl, rfl⟩

theorem from_resource_of_id (type : CSIPAusResource) (parent : Option StoredResourceId)
    (resource : ResourceData) (now : Int) (i : StoredResourceId)
    (h : opResourceId parent resource = some i) :
    ∃ nr, StoredResource.from_resource type parent resource now = Except.ok nr ∧
      nr.id = i ∧ nr.resource_type = type := by
  unfold opResourceId at h
  unfold StoredResource.from_resource
  cases hh : resource.href with
  | none => rw [hh] at h; cases h
  | some str =>
    rw [hh] at h
    dsimp only at h ⊢
    by_cases hs : str = ""
    · rw [if_pos hs] at h; cases h
    · rw [if_neg hs] at h
      cases h
      rw [if_neg hs]
      exact ⟨_, rfl, rfl, rfl⟩

theorem append_resource_ok_char (s : ResourceStore) (type : CSIPAusResource)
    (parent : Option StoredResourceId) (resource : ResourceData) (now : Int)
    (nr : StoredResource)
    (hfr : StoredResource.from_resource type parent resource now = Except.ok nr)
    (hdup : s.id_store nr.id = none) :
    (s.append_resource type parent resource now).2 = Except.ok nr ∧
    (∀ u, (s.append_resource type parent resource now).1.get_for_type u =
      if u = type then s.get_for_type type ++ [nr] else s.get_for_type u) ∧
    (∀ i, (s.append_resource type parent resource now).1.id_store i =
      if i = nr.id then some nr else s.id_store i) := by
  refine ⟨by simp [ResourceStore.append_resource, hfr, hdup], ?_, ?_⟩
  · intro u
    simp only [ResourceStore.append_resource, hfr, hdup]
    by_cases hu : u = type
    · subst hu
      cases hrs : s.resource_store u <;>
        simp [ResourceStore.get_for_type, hrs]
    · simp [ResourceStore.get_for_type, hu]
  · intro i
    simp [ResourceStore.append_resource, hfr, hdup]

theorem append_resource_error_fr (s : ResourceStore) (type : CSIPAusResource)
    (parent : Option StoredResourceId) (resource : ResourceData) (now : Int)
    (e : ClientError)
    (hfr : StoredResource.from_resource type parent resource now = Except.error e) :
    s.append_resource type parent resource now = (s, Except.error e) := by
  simp [ResourceStore.append_resource, hfr]

theorem append_resource_error_dup (s : ResourceStore) (type : CSIPAusResource)
    (parent : Option StoredResourceId) (resource : ResourceData) (now : Int)
    (nr : StoredResource) (old : StoredResource)
    (hfr : StoredResource.from_resource type parent resource now = Except.ok nr)
    (hdup : s.id_store nr.id = some old) :
    s.append_resource type parent resource now =
      (s, Except.error (ClientError.cactusClient
        "Resource store already has this resource. Cannot append a copy.")) := by
  simp [ResourceStore.append_resource, hfr, hdup]

theorem upsert_resource_ok_char (s : ResourceStore) (type : CSIPAusResource)
    (parent : Option StoredResourceId) (resource : ResourceData) (now : Int)
    (nr : StoredResource)
    (hfr : StoredResource.from_resource type parent resource now = Except.ok nr) :
    (s.upsert_resource type parent resource now).2 = Except.ok nr ∧
    (∀ i, (s.upsert_resource type parent resource now).1.id_store i =
      if i = nr.id then some nr else s.id_store i) ∧
    (∀ u, u ≠ type →
      (s.upsert_resource type parent resource now).1.get_for_type u =
        s.get_for_type u) ∧
    (s.upsert_resource type parent resource now).1.get_for_type type =
      upsert_into_list nr (s.get_for_type type) := by
  refine ⟨by simp [ResourceStore.upsert_resource, hfr], ?_, ?_, ?_⟩
  · intro i
    simp [ResourceStore.upsert_resource, hfr]
  · intro u hu
    simp only [ResourceStore.upsert_resource, hfr]
    simp [ResourceStore.get_for_type, hu]
  · simp only [ResourceStore.upsert_resource, hfr]
    cases hrs : s.resource_store type <;>
      simp [ResourceStore.get_for_type, hrs, upsert_into_list]

theorem upsert_resource_error_fr (s : ResourceStore) (type : CSIPAusResource)
    (parent : Option StoredResourceId) (resource : ResourceData) (now : Int)
    (e : ClientError)
    (hfr : StoredResource.from_resource type parent resource now = Except.error e) :
    s.upsert_resource type parent resource now = (s, Except.error e) := by
  simp [ResourceStore.upsert_resource, hfr]

theorem delete_resource_none_char (s : ResourceStore) (id : StoredResourceId)
    (h : s.id_store id = none) :
    s.delete_resource id = (s, Except.ok none) := by
  simp [ResourceStore.delete_resource, h]

theorem delete_resource_some_char (s : ResourceStore) (id : StoredResourceId)
    (deleted : StoredResource) (h : s.id_store id = some deleted) :
    (∀ i, (s.delete_resource id).1.id_store i =
      if i = id then none else s.id_store i) ∧
    (∀ u, u ≠ deleted.resource_type →
      (s.delete_resource id).1.get_for_type u = s.get_for_type u) ∧
    (s.delete_resource id).1.get_for_type deleted.resource_type =
      (s.get_for_type deleted.resource_type).erase deleted := by
  cases hrs : s.resource_store deleted.resource_type with
  | none =>
    have hstore : (s.delete_resource id).1 =
        { s with id_store := fun i => if i = id then none else s.id_store i } := by
      simp [ResourceStore.delete_resource, h, hrs]
    rw [hstore]
    refine ⟨fun i => rfl, fun u _ => rfl, ?_⟩
    simp [ResourceStore.get_for_type, hrs]
  | some resource_list =>
    by_cases hmem : deleted ∈ resource_list
    · have hstore : (s.delete_resource id).1 =
          { resource_store := fun t =>
              if t = deleted.resource_type then some (resource_list.erase deleted)
              else s.resource_store t,
            id_store := fun i => if i = id then none else s.id_store i } := by
        simp [ResourceStore.delete_resource, h, hrs, hmem]
      rw [hstore]
      refine ⟨fun i => rfl, ?_, ?_⟩
      · intro u hu
        simp [ResourceStore.get_for_type, hu]
      · simp [ResourceStore.get_for_type, hrs]
    · have hstore : (s.delete_resource id).1 =
          { s with id_store := fun i => if i = id then none else s.id_store i } := by
        simp [ResourceStore.delete_resource, h, hrs, hmem]
      rw [hstore]
      refine ⟨fun i => rfl, fun u _ => rfl, ?_⟩
      simp [ResourceStore.get_for_type, hrs, List.erase_of_not_mem hmem]


theorem clear_resource_char (s : ResourceStore) (type : CSIPAusResource) :
    (∀ u, (s.clear_resource type).get_for_type u =
      if u = type then [] else s.get_for_type u) ∧
    (∀ i, (s.clear_resource type).id_store i =
      if (s.get_for_type type).any (fun sr => sr.id == i) then none
      else s.id_store i) := by
  unfold ResourceStore.clear_resource
  cases hrs : s.resource_store type with
  | none =>
    refine ⟨?_, ?_⟩
    · intro u
      by_cases hu : u = type
      · subst hu
        simp [ResourceStore.get_for_type, hrs]
      · simp [hu]
    · intro i
      simp [ResourceStore.get_for_type, hrs]
  | some existing_srs =>
    refine ⟨?_, ?_⟩
    · intro u
      by_cases hu : u = type
      · subst hu
        simp [ResourceStore.get_for_type]
      · simp [ResourceStore.get_for_type, hu]
    · intro i
      simp [ResourceStore.get_for_type, hrs]

theorem upsert_into_list_no_match (nr : StoredResource) :
    ∀ l : List StoredResource, (∀ x ∈ l, x.id ≠ nr.id) →
    upsert_into_list nr l = l ++ [nr] := by
  intro l
  induction l with
  | nil => intro _; rfl
  | cons x rest ih =>
    intro hl
    have hx : x.id ≠ nr.id := hl x (List.mem_cons_self _ _)
    simp only [upsert_into_list, if_neg hx, List.cons_append]
    rw [ih (fun y hy => hl y (List.mem_cons_of_mem _ hy))]

theorem upsert_into_list_match (nr : StoredResource) :
    ∀ (l1 : List StoredResource) (old : StoredResource) (l2 : List StoredResource),
    old.id = nr.id → (∀ x ∈ l1, x.id ≠ nr.id) →
    upsert_into_list nr (l1 ++ old :: l2) = l1 ++ nr :: l2 := by
  intro l1
  induction l1 with
  | nil =>
    intro old l2 hold _
    simp only [List.nil_append, upsert_into_list, if_pos hold]
  | cons x rest ih =>
    intro old l2 hold hl
    have hx : x.id ≠ nr.id := hl x (List.mem_cons_self _ _)
    simp only [List.cons_append, upsert_into_list, if_neg hx]
    exact congrArg (fun t => x :: t)
      (ih old l2 hold (fun y hy => hl y (List.mem_cons_of_mem _ hy)))

theorem pairwise_erase_split (d : StoredResource) :
    ∀ l : List StoredResource, l.Pairwise (fun a b => a.id ≠ b.id) → d ∈ l →
    ∃ u v, l = u ++ d :: v ∧ l.erase d = u ++ v ∧
      (∀ x, x ∈ u ∨ x ∈ v → x.id ≠ d.id) := by
  intro l
  induction l with
  | nil => intro _ hm; exact absurd hm (by simp)
  | cons y rest ih =>
    intro hp hm
    rcases List.mem_cons.mp hm with rfl | hm0
    · refine ⟨[], rest, rfl, List.erase_cons_head _ _, ?_⟩
      intro x hx
      rcases hx with hx | hx
      · exact absurd hx (by simp)
      · exact ((List.pairwise_cons.mp hp).1 x hx).symm
    · obtain ⟨u, v, hl, he, hne⟩ := ih (List.pairwise_cons.mp hp).2 hm0
      have hyd : y.id ≠ d.id := (List.pairwise_cons.mp hp).1 d hm0
      have hyne : y ≠ d := fun hcontra => hyd (by rw [hcontra])
      refine ⟨y :: u, v, by simp [hl], ?_, ?_⟩
      · rw [List.erase_cons_tail (by simpa using hyne), he]
        exact (List.cons_append y u v).symm
      · intro x hx
        rcases hx with hx | hx
        · rcases List.mem_cons.mp hx with rfl | hx0
          · exact hyd
          · exact hne x (Or.inl hx0)
        · exact hne x (Or.inr hx)

/-- The empty store satisfies the invariant for any typing. -/
theorem StoreWF_empty (τ : StoredResourceId → CSIPAusResource) :
    StoreWF τ ResourceStore.empty := by
  refine ⟨?_, ?_, ?_⟩
  · intro t sr hmem
    exact absurd hmem (by simp [ResourceStore.empty, ResourceStore.get_for_type])
  · intro i sr h
    exact absurd h (by simp [ResourceStore.empty])
  · intro t
    simp [ResourceStore.empty, ResourceStore.get_for_type]

/-- Inserting a resource with a fresh identifier at the back of its type
list preserves the store invariant. -/
theorem StoreWF_insert_fresh (τ : StoredResourceId → CSIPAusResource)
    (s s' : ResourceStore) (hwf : StoreWF τ s) (type : CSIPAusResource)
    (nr : StoredResource) (htype : nr.resource_type = type)
    (hτ : τ nr.id = type) (hfreshid : s.id_store nr.id = none)
    (hty : ∀ u, s'.get_for_type u =
      if u = type then s.get_for_type type ++ [nr] else s.get_for_type u)
    (hidst : ∀ i, s'.id_store i =
      if i = nr.id then some nr else s.id_store i) :
    StoreWF τ s' := by
  obtain ⟨hw1, hw2, hw3⟩ := hwf
  have hfresh : ∀ t x, x ∈ s.get_for_type t → x.id ≠ nr.id := by
    intro t x hx he
    have h3 := (hw1 t x hx).2.2
    rw [he, hfreshid] at h3
    cases h3
  refine ⟨?_, ?_, ?_⟩
  · intro t sr hmem
    rw [hty t] at hmem
    by_cases ht : t = type
    · rw [if_pos ht] at hmem
      subst ht
      rcases List.mem_append.mp hmem with hold | hnew
      · obtain ⟨h1, h2, h3⟩ := hw1 _ sr hold
        refine ⟨h1, h2, ?_⟩
        rw [hidst sr.id, if_neg (hfresh _ sr hold), h3]
      · have heq : sr = nr := by simpa using hnew
        subst heq
        refine ⟨htype, hτ, ?_⟩
        rw [hidst sr.id, if_pos rfl]
    · rw [if_neg ht] at hmem
      obtain ⟨h1, h2, h3⟩ := hw1 t sr hmem
      refine ⟨h1, h2, ?_⟩
      rw [hidst sr.id, if_neg (hfresh t sr hmem), h3]
  · intro i sr h
    rw [hidst i] at h
    by_cases hi : i = nr.id
    · rw [if_pos hi] at h
      have heq : nr = sr := by simpa using h
      subst heq
      refine ⟨hi.symm, ?_⟩
      rw [hty nr.resource_type, htype, if_pos rfl]
      exact List.mem_append_right _ (by simp)
    · rw [if_neg hi] at h
      obtain ⟨h1, h2⟩ := hw2 i sr h
      refine ⟨h1, ?_⟩
      rw [hty sr.resource_type]
      by_cases ht : sr.resource_type = type
      · rw [if_pos ht]
        exact List.mem_append_left _ (ht ▸ h2)
      · rw [if_neg ht]
        exact h2
  · intro t
    rw [hty t]
    by_cases ht : t = type
    · rw [if_pos ht]
      subst ht
      rw [List.pairwise_append]
      refine ⟨hw3 t, List.pairwise_singleton _ _, ?_⟩
      intro a ha b hb
      have heq : b = nr := by simpa using hb
      subst heq
      exact hfresh t a ha
    · rw [if_neg ht]
      exact hw3 t

theorem pairwise_replace_mid (u v : List StoredResource) (old nr : StoredResource)
    (hid : nr.id = old.id)
    (hp : (u ++ old :: v).Pairwise (fun a b => a.id ≠ b.id)) :
    (u ++ nr :: v).Pairwise (fun a b => a.id ≠ b.id) := by
  rw [List.pairwise_append] at hp ⊢
  obtain ⟨hu, hov, huv⟩ := hp
  obtain ⟨holdv, hv⟩ := List.pairwise_cons.mp hov
  refine ⟨hu, List.pairwise_cons.mpr ⟨?_, hv⟩, ?_⟩
  · intro y hy
    rw [hid]
    exact holdv y hy
  · intro a ha b hb
    rcases List.mem_cons.mp hb with rfl | hb0
    · rw [hid]
      exact huv a ha old (List.mem_cons_self _ _)
    · exact huv a ha b (List.mem_cons_of_mem _ hb0)

theorem StoreWF_append (τ : StoredResourceId → CSIPAusResource) (s : ResourceStore)
    (hwf : StoreWF τ s) (type : CSIPAusResource) (parent : Option StoredResourceId)
    (resource : ResourceData) (now : Int)
    (hop : ∀ i, opResourceId parent resource = some i → τ i = type) :
    StoreWF τ (s.append_resource type parent resource now).1 := by
  cases hfr : StoredResource.from_resource type parent resource now with
  | error e =>
    rw [append_resource_error_fr s type parent resource now e hfr]
    exact hwf
  | ok nr =>
    obtain ⟨hid, htype⟩ := from_resource_ok type parent resource now nr hfr
    cases hdup : s.id_store nr.id with
    | some old =>
      rw [append_resource_error_dup s type parent resource now nr old hfr hdup]
      exact hwf
    | none =>
      obtain ⟨-, hty, hidst⟩ :=
        append_resource_ok_char s type parent resource now nr hfr hdup
      exact StoreWF_insert_fresh τ s _ hwf type nr htype (hop _ hid) hdup hty hidst

theorem StoreWF_upsert (τ : StoredResourceId → CSIPAusResource) (s : ResourceStore)
    (hwf : StoreWF τ s) (type : CSIPAusResource) (parent : Option StoredResourceId)
    (resource : ResourceData) (now : Int)
    (hop : ∀ i, opResourceId parent resource = some i → τ i = type) :
    StoreWF τ (s.upsert_resource type parent resource now).1 := by
  cases hfr : StoredResource.from_resource type parent resource now with
  | error e =>
    rw [upsert_resource_error_fr s type parent resource now e hfr]
    exact hwf
  | ok nr =>
    obtain ⟨hid, htype⟩ := from_resource_ok type parent resource now nr hfr
    have hτ : τ nr.id = type := hop _ hid
    obtain ⟨-, hidst, hty_ne, hty_eq⟩ :=
      upsert_resource_ok_char s type parent resource now nr hfr
    obtain ⟨hw1, hw2, hw3⟩ := hwf
    cases hold : s.id_store nr.id with
    | none =>
      have hfresh : ∀ x ∈ s.get_for_type type, x.id ≠ nr.id := by
        intro x hx he
        have h3 := (hw1 type x hx).2.2
        rw [he, hold] at h3
        cases h3
      have hty : ∀ u, (s.upsert_resource type parent resource now).1.get_for_type u =
          if u = type then s.get_for_type type ++ [nr] else s.get_for_type u := by
        intro u
        by_cases hu : u = type
        · subst hu
          rw [if_pos rfl, hty_eq, upsert_into_list_no_match nr _ hfresh]
        · rw [if_neg hu, hty_ne u hu]
      exact StoreWF_insert_fresh τ s _ ⟨hw1, hw2, hw3⟩ type nr htype hτ hold hty hidst
    | some old =>
      obtain ⟨holdid, holdmem⟩ := hw2 nr.id old hold
      have holdtype : old.resource_type = type := by
        have h1 := (hw1 _ old holdmem).2.1
        rw [holdid] at h1
        rw [← h1, hτ]
      rw [holdtype] at holdmem
      obtain ⟨u, v, hl, -, hneid⟩ :=
        pairwise_erase_split old (s.get_for_type type) (hw3 type) holdmem
      have hnru : ∀ x ∈ u, x.id ≠ nr.id := by
        intro x hx
        rw [← holdid]
        exact hneid x (Or.inl hx)
      have hlist : (s.upsert_resource type parent resource now).1.get_for_type type =
          u ++ nr :: v := by
        rw [hty_eq, hl, upsert_into_list_match nr u old v holdid hnru]
      have hmem_sget : ∀ x, (x ∈ u ∨ x ∈ v) → x ∈ s.get_for_type type := by
        intro x hx
        rw [hl]
        rcases hx with hx | hx
        · exact List.mem_append_left _ hx
        · exact List.mem_append_right _ (List.mem_cons_of_mem _ hx)
      have hfreshne : ∀ t x, t ≠ type → x ∈ s.get_for_type t → x.id ≠ nr.id := by
        intro t x ht hx he
        have h2 := (hw1 t x hx).2.1
        rw [he, hτ] at h2
        exact ht h2.symm
      refine ⟨?_, ?_, ?_⟩
      · intro t sr hmem
        by_cases ht : t = type
        · subst ht
          rw [hlist] at hmem
          rcases List.mem_append.mp hmem with hu0 | hmid
          · have hx := hmem_sget sr (Or.inl hu0)
            obtain ⟨h1, h2, h3⟩ := hw1 _ sr hx
            refine ⟨h1, h2, ?_⟩
            have hnesr : sr.id ≠ nr.id := by
              rw [← holdid]
              exact hneid sr (Or.inl hu0)
            rw [hidst sr.id, if_neg hnesr, h3]
          · rcases List.mem_cons.mp hmid with rfl | hv0
            · refine ⟨htype, hτ, ?_⟩
              rw [hidst sr.id, if_pos rfl]
            · have hx := hmem_sget sr (Or.inr hv0)
              obtain ⟨h1, h2, h3⟩ := hw1 _ sr hx
              refine ⟨h1, h2, ?_⟩
              have hnesr : sr.id ≠ nr.id := by
                rw [← holdid]
                exact hneid sr (Or.inr hv0)
              rw [hidst sr.id, if_neg hnesr, h3]
        · rw [hty_ne t ht] at hmem
          obtain ⟨h1, h2, h3⟩ := hw1 t sr hmem
          refine ⟨h1, h2, ?_⟩
          rw [hidst sr.id, if_neg (hfreshne t sr ht hmem), h3]
      · intro i sr h
        rw [hidst i] at h
        by_cases hi : i = nr.id
        · rw [if_pos hi] at h
          have heq : nr = sr := by simpa using h
          subst heq
          refine ⟨hi.symm, ?_⟩
          rw [htype, hlist]
          exact List.mem_append_right _ (List.mem_cons_self _ _)
        · rw [if_neg hi] at h
          obtain ⟨h1, h2⟩ := hw2 i sr h
          refine ⟨h1, ?_⟩
          by_cases ht : sr.resource_type = type
          · rw [ht, hlist]
            rw [ht] at h2
            rw [hl] at h2
            rcases List.mem_append.mp h2 with hu0 | hmid
            · exact List.mem_append_left _ hu0
            · rcases List.mem_cons.mp hmid with rfl | hv0
              · exact absurd (h1.symm.trans holdid) hi
              · exact List.mem_append_right _ (List.mem_cons_of_mem _ hv0)
          · rw [hty_ne _ ht]
            exact h2
      · intro t
        by_cases ht : t = type
        · subst ht
          rw [hlist]
          apply pairwise_replace_mid u v old nr holdid.symm
          rw [← hl]
          exact hw3 t
        · rw [hty_ne t ht]
          exact hw3 t

theorem StoreWF_delete (τ : StoredResourceId → CSIPAusResource) (s : ResourceStore)
    (hwf : StoreWF τ s) (id : StoredResourceId) :
    StoreWF τ (s.delete_resource id).1 := by
  obtain ⟨hw1, hw2, hw3⟩ := hwf
  cases hdel : s.id_store id with
  | none =>
    rw [delete_resource_none_char s id hdel]
    exact ⟨hw1, hw2, hw3⟩
  | some deleted =>
    obtain ⟨hidst, hty_ne, hty_eq⟩ := delete_resource_some_char s id deleted hdel
    obtain ⟨hdelid, hdelmem⟩ := hw2 id deleted hdel
    obtain ⟨u, v, hl, herase, hneid⟩ :=
      pairwise_erase_split deleted (s.get_for_type deleted.resource_type)
        (hw3 deleted.resource_type) hdelmem
    have hlist : (s.delete_resource id).1.get_for_type deleted.resource_type =
        u ++ v := by
      rw [hty_eq, herase]
    have hmem_sget : ∀ x, (x ∈ u ∨ x ∈ v) →
        x ∈ s.get_for_type deleted.resource_type := by
      intro x hx
      rw [hl]
      rcases hx with hx | hx
      · exact List.mem_append_left _ hx
      · exact List.mem_append_right _ (List.mem_cons_of_mem _ hx)
    refine ⟨?_, ?_, ?_⟩
    · intro t sr hmem
      by_cases ht : t = deleted.resource_type
      · subst ht
        rw [hlist] at hmem
        have hx := hmem_sget sr (List.mem_append.mp hmem)
        obtain ⟨h1, h2, h3⟩ := hw1 _ sr hx
        refine ⟨h1, h2, ?_⟩
        have hnesr : sr.id ≠ id := by
          rw [← hdelid]
          exact hneid sr (List.mem_append.mp hmem)
        rw [hidst sr.id, if_neg hnesr, h3]
      · rw [hty_ne t ht] at hmem
        obtain ⟨h1, h2, h3⟩ := hw1 t sr hmem
        refine ⟨h1, h2, ?_⟩
        have hnesr : sr.id ≠ id := by
          intro he
          rw [he, hdel] at h3
          have : sr = deleted := by simpa using h3.symm
          rw [this] at h1
          exact ht h1.symm
        rw [hidst sr.id, if_neg hnesr, h3]
    · intro i sr h
      rw [hidst i] at h
      by_cases hi : i = id
      · rw [if_pos hi] at h
        cases h
      · rw [if_neg hi] at h
        obtain ⟨h1, h2⟩ := hw2 i sr h
        refine ⟨h1, ?_⟩
        by_cases ht : sr.resource_type = deleted.resource_type
        · rw [ht, hlist]
          rw [ht, hl] at h2
          rcases List.mem_append.mp h2 with hu0 | hmid
          · exact List.mem_append_left _ hu0
          · rcases List.mem_cons.mp hmid with rfl | hv0
            · exact absurd (h1.symm.trans hdelid) hi
            · exact List.mem_append_right _ hv0
        · rw [hty_ne _ ht]
          exact h2
    · intro t
      by_cases ht : t = deleted.resource_type
      · subst ht
        rw [hty_eq]
        exact (hw3 _).sublist (List.erase_sublist _ _)
      · rw [hty_ne t ht]
        exact hw3 t

theorem StoreWF_clear (τ : StoredResourceId → CSIPAusResource) (s : ResourceStore)
    (hwf : StoreWF τ s) (type : CSIPAusResource) :
    StoreWF τ (s.clear_resource type) := by
  obtain ⟨hw1, hw2, hw3⟩ := hwf
  obtain ⟨hty, hidst⟩ := clear_resource_char s type
  refine ⟨?_, ?_, ?_⟩
  · intro t sr hmem
    rw [hty t] at hmem
    by_cases ht : t = type
    · rw [if_pos ht] at hmem
      exact absurd hmem (by simp)
    · rw [if_neg ht] at hmem
      obtain ⟨h1, h2, h3⟩ := hw1 t sr hmem
      refine ⟨h1, h2, ?_⟩
      have hany : (s.get_for_type type).any (fun x => x.id == sr.id) = false := by
        rw [List.any_eq_false]
        intro y hy
        have hτy := (hw1 type y hy).2.1
        simp only [beq_iff_eq]
        intro he
        rw [← he] at h2
        rw [hτy] at h2
        exact ht h2.symm
      rw [hidst sr.id, hany, if_neg (by simp), h3]
  · intro i sr h
    rw [hidst i] at h
    by_cases hany : (s.get_for_type type).any (fun x => x.id == i) = true
    · rw [hany] at h
      rw [if_pos rfl] at h
      cases h
    · rw [Bool.not_eq_true] at hany
      rw [hany, if_neg (by simp)] at h
      obtain ⟨h1, h2⟩ := hw2 i sr h
      refine ⟨h1, ?_⟩
      by_cases ht : sr.resource_type = type
      · exfalso
        rw [List.any_eq_false] at hany
        have := hany sr (ht ▸ h2)
        simp only [beq_iff_eq] at this
        exact this h1
      · rw [hty sr.resource_type, if_neg ht]
        exact h2
  · intro t
    rw [hty t]
    by_cases ht : t = type
    · rw [if_pos ht]
      exact List.Pairwise.nil
    · rw [if_neg ht]
      exact hw3 t

theorem runStoreOps_cons (op : StoreOp) (rest : List StoreOp) (s : ResourceStore) :
    runStoreOps (op :: rest) s = runStoreOps rest (applyStoreOp s op) := by
  simp [runStoreOps]

theorem StoreWF_applyStoreOp (τ : StoredResourceId → CSIPAusResource)
    (s : ResourceStore) (hwf : StoreWF τ s) (op : StoreOp)
    (hop : match op with
      | StoreOp.append type parent resource _ =>
        ∀ i, opResourceId parent resource = some i → τ i = type
      | StoreOp.upsert type parent resource _ =>
        ∀ i, opResourceId parent resource = some i → τ i = type
      | StoreOp.delete _ => True
      | StoreOp.clear _ => True) :
    StoreWF τ (applyStoreOp s op) := by
  cases op with
  | append type parent resource now =>
    exact StoreWF_append τ s hwf type parent resource now hop
  | upsert type parent resource now =>
    exact StoreWF_upsert τ s hwf type parent resource now hop
  | delete id => exact StoreWF_delete τ s hwf id
  | clear type => exact StoreWF_clear τ s hwf type

theorem StoreWF_runStoreOps (τ : StoredResourceId → CSIPAusResource)
    (ops : List StoreOp) :
    ∀ s : ResourceStore, OpsConsistent τ ops → StoreWF τ s →
    StoreWF τ (runStoreOps ops s) := by
  induction ops with
  | nil =>
    intro s _ hwf
    simpa [runStoreOps] using hwf
  | cons op rest ih =>
    intro s hops hwf
    rw [runStoreOps_cons]
    exact ih _ (fun op0 h0 => hops op0 (List.mem_cons_of_mem _ h0))
      (StoreWF_applyStoreOp τ s hwf op (hops op (List.mem_cons_self _ _)))

theorem count_eq_one_of_pairwise (l : List StoredResource) (sr : StoredResource)
    (hp : l.Pairwise (fun a b => a.id ≠ b.id)) (hm : sr ∈ l) : l.count sr = 1 := by
  obtain ⟨u, v, hl, -, hne⟩ := pairwise_erase_split sr l hp hm
  have hnu : sr ∉ u := fun hx => hne sr (Or.inl hx) rfl
  have hnv : sr ∉ v := fun hx => hne sr (Or.inr hx) rfl
  rw [hl, List.count_append, List.count_cons_self,
    List.count_eq_zero.mpr hnu, List.count_eq_zero.mpr hnv]

/-- C1 (amended with the type-consistency the discovery walker guarantees:
a single assignment of resource kinds to identifiers covers every
append/upsert of the sequence — without it a later upsert of the same
identifier under a different kind strands the earlier entry, see the
counterexample): after any such sequence of append / upsert / delete /
clear operations from the empty store, every stored resource round-trips
through `get_for_id` and appears exactly once in exactly its own type
list; `append_resource` raises (leaving the store untouched) whenever the
identifier is already present; and `upsert_resource` replaces the existing
entry in place, preserving the position of every other entry. -/
theorem c1_store_invariants (τ : StoredResourceId → CSIPAusResource)
    (ops : List StoreOp) (hops : OpsConsistent τ ops) (s : ResourceStore)
    (hs : s = runStoreOps ops ResourceStore.empty) :
    (∀ t sr, sr ∈ s.get_for_type t →
      s.get_for_id sr.id = some sr ∧ sr.resource_type = t) ∧
    (∀ i sr, s.get_for_id i = some sr →
      sr.id = i ∧ sr ∈ s.get_for_type sr.resource_type ∧
      (s.get_for_type sr.resource_type).count sr = 1 ∧
      ∀ t, t ≠ sr.resource_type → sr ∉ s.get_for_type t) ∧
    (∀ type parent resource now i old,
      opResourceId parent resource = some i → s.get_for_id i = some old →
      ∃ e, s.append_resource type parent resource now = (s, Except.error e)) ∧
    (∀ type parent resource now i old,
      opResourceId parent resource = some i → τ i = type →
      s.get_for_id i = some old →
      ∃ nr l1 l2,
        StoredResource.from_resource type parent resource now = Except.ok nr ∧
        nr.id = i ∧ old.id = i ∧
        s.get_for_type type = l1 ++ old :: l2 ∧
        (s.upsert_resource type parent resource now).1.get_for_type type =
          l1 ++ nr :: l2 ∧
        (∀ u, u ≠ type →
          (s.upsert_resource type parent resource now).1.get_for_type u =
            s.get_for_type u) ∧
        (s.upsert_resource type parent resource now).1.get_for_id i = some nr ∧
        (s.upsert_resource type parent resource now).2 = Except.ok nr) := by
  subst hs
  obtain ⟨hw1, hw2, hw3⟩ :=
    StoreWF_runStoreOps τ ops ResourceStore.empty hops (StoreWF_empty τ)
  refine ⟨?_, ?_, ?_, ?_⟩
  · intro t sr hm
    exact ⟨(hw1 t sr hm).2.2, (hw1 t sr hm).1⟩
  · intro i sr h
    obtain ⟨h1, h2⟩ := hw2 i sr h
    refine ⟨h1, h2, count_eq_one_of_pairwise _ sr (hw3 _) h2, ?_⟩
    intro t ht hm
    exact ht (hw1 t sr hm).1.symm
  · intro type parent resource now i old hid hold
    obtain ⟨nr, hfr, hnrid, -⟩ :=
      from_resource_of_id type parent resource now i hid
    refine ⟨_, append_resource_error_dup _ type parent resource now nr old hfr ?_⟩
    rw [hnrid]
    exact hold
  · intro type parent resource now i old hid hτ hold
    obtain ⟨nr, hfr, hnrid, -⟩ :=
      from_resource_of_id type parent resource now i hid
    obtain ⟨hok, hidst, hty_ne, hty_eq⟩ :=
      upsert_resource_ok_char _ type parent resource now nr hfr
    obtain ⟨holdid, holdmem⟩ := hw2 i old hold
    have holdtype : old.resource_type = type := by
      have hτold := (hw1 _ old holdmem).2.1
      rw [holdid] at hτold
      rw [← hτold, hτ]
    rw [holdtype] at holdmem
    obtain ⟨u, v, hl, -, hneid⟩ :=
      pairwise_erase_split old _ (hw3 type) holdmem
    have hnru : ∀ x ∈ u, x.id ≠ nr.id := by
      intro x hx
      rw [hnrid, ← holdid]
      exact hneid x (Or.inl hx)
    refine ⟨nr, u, v, hfr, hnrid, holdid, hl, ?_, hty_ne, ?_, hok⟩
    · rw [hty_eq, hl,
        upsert_into_list_match nr u old v (by rw [holdid, hnrid]) hnru]
    · show (_ : ResourceStore).id_store i = some nr
      rw [hidst i, if_pos hnrid.symm]

/-- C1 as frozen quantifies over arbitrary operation sequences, and the
code violates it when an upsert reuses an identifier under a different
resource kind: after `append(Time, /a)` then `upsert(DERStatus, /a)` the
Time entry is still stored in the by-type index but `get_for_id` of its
identifier returns the DERStatus entry instead. -/
theorem c1_counterexample :
    ((⟨⟨["/a"]⟩, 0, CSIPAusResource.Time, [], none,
        ⟨some "/a", [], 0⟩⟩ : StoredResource) ∈
      (runStoreOps
        [StoreOp.append CSIPAusResource.Time none ⟨some "/a", [], 0⟩ 0,
         StoreOp.upsert CSIPAusResource.DERStatus none ⟨some "/a", [], 0⟩ 1]
        ResourceStore.empty).get_for_type CSIPAusResource.Time) ∧
    (runStoreOps
        [StoreOp.append CSIPAusResource.Time none ⟨some "/a", [], 0⟩ 0,
         StoreOp.upsert CSIPAusResource.DERStatus none ⟨some "/a", [], 0⟩ 1]
        ResourceStore.empty).get_for_id ⟨["/a"]⟩ =
      some ⟨⟨["/a"]⟩, 1, CSIPAusResource.DERStatus, [], none, ⟨some "/a", [], 0⟩⟩ ∧
    (⟨⟨["/a"]⟩, 1, CSIPAusResource.DERStatus, [], none,
        ⟨some "/a", [], 0⟩⟩ : StoredResource) ≠
      ⟨⟨["/a"]⟩, 0, CSIPAusResource.Time, [], none, ⟨some "/a", [], 0⟩⟩ := by
  decide

/-- Witness for C1: one consistent append of a Time resource; its entry
round-trips and is counted exactly once, and appending it again raises. -/
theorem c1_store_invariants_witness :
    ((runStoreOps [StoreOp.append CSIPAusResource.Time none ⟨some "/a", [], 0⟩ 5]
        ResourceStore.empty).get_for_type CSIPAusResource.Time).count
      ⟨⟨["/a"]⟩, 5, CSIPAusResource.Time, [], none, ⟨some "/a", [], 0⟩⟩ = 1 ∧
    (∃ e, (runStoreOps [StoreOp.append CSIPAusResource.Time none ⟨some "/a", [], 0⟩ 5]
        ResourceStore.empty).append_resource CSIPAusResource.Time none
          ⟨some "/a", [], 0⟩ 7 =
      (runStoreOps [StoreOp.append CSIPAusResource.Time none ⟨some "/a", [], 0⟩ 5]
        ResourceStore.empty, Except.error e)) := by
  have hcons : OpsConsistent (fun _ => CSIPAusResource.Time)
      [StoreOp.append CSIPAusResource.Time none ⟨some "/a", [], 0⟩ 5] := by
    intro op hop
    have heq : op = StoreOp.append CSIPAusResource.Time none ⟨some "/a", [], 0⟩ 5 := by
      simpa using hop
    subst heq
    intro i _
    rfl
  have h := c1_store_invariants (fun _ => CSIPAusResource.Time)
    [StoreOp.append CSIPAusResource.Time none ⟨some "/a", [], 0⟩ 5] hcons
    (runStoreOps [StoreOp.append CSIPAusResource.Time none ⟨some "/a", [], 0⟩ 5]
      ResourceStore.empty) rfl
  constructor
  · exact (h.2.1 ⟨["/a"]⟩
      ⟨⟨["/a"]⟩, 5, CSIPAusResource.Time, [], none, ⟨some "/a", [], 0⟩⟩
      (by decide)).2.2.1
  · exact h.2.2.1 CSIPAusResource.Time none ⟨some "/a", [], 0⟩ 7 ⟨["/a"]⟩
      ⟨⟨["/a"]⟩, 5, CSIPAusResource.Time, [], none, ⟨some "/a", [], 0⟩⟩
      (by decide) (by decide)

/-- C10: on any store satisfying the invariant (each identifier held by a
single resource kind, the two indices consistent), `clear_resource T`
empties the type-T list and unlinks exactly the T entries from the by-id
index, leaves every other type list and every non-T by-id entry unchanged,
and when nothing of type T is stored it changes nothing — structurally
when the type key is absent, observably (every `get_for_type` /
`get_for_id` answer unchanged) when the key maps to an empty list a
delete left behind. -/
theorem c10_clear_resource_frame (τ : StoredResourceId → CSIPAusResource)
    (s : ResourceStore) (hwf : StoreWF τ s) (T : CSIPAusResource) :
    (s.clear_resource T).get_for_type T = [] ∧
    (∀ sr ∈ s.get_for_type T, (s.clear_resource T).get_for_id sr.id = none) ∧
    (∀ U, U ≠ T → (s.clear_resource T).get_for_type U = s.get_for_type U) ∧
    (∀ i sr, s.get_for_id i = some sr → sr.resource_type ≠ T →
      (s.clear_resource T).get_for_id i = some sr) ∧
    (s.resource_store T = none → s.clear_resource T = s) ∧
    (s.get_for_type T = [] →
      (∀ U, (s.clear_resource T).get_for_type U = s.get_for_type U) ∧
      ∀ i, (s.clear_resource T).get_for_id i = s.get_for_id i) := by
  obtain ⟨hw1, hw2, hw3⟩ := hwf
  obtain ⟨hty, hidst⟩ := clear_resource_char s T
  refine ⟨?_, ?_, ?_, ?_, ?_, ?_⟩
  · rw [hty T, if_pos rfl]
  · intro sr hm
    show (s.clear_resource T).id_store sr.id = none
    rw [hidst sr.id,
      if_pos (List.any_eq_true.mpr ⟨sr, hm, by simp⟩)]
  · intro U hU
    rw [hty U, if_neg hU]
  · intro i sr h hsr
    have hsr' : s.id_store i = some sr := h
    have hany : ¬((s.get_for_type T).any (fun x => x.id == i) = true) := by
      intro hx
      obtain ⟨y, hy, hyid⟩ := List.any_eq_true.mp hx
      simp only [beq_iff_eq] at hyid
      have h3 := (hw1 T y hy).2.2
      rw [hyid, hsr'] at h3
      have hy_sr : y = sr := Option.some.inj h3.symm
      exact hsr (by rw [← hy_sr]; exact (hw1 T y hy).1)
    show (s.clear_resource T).id_store i = some sr
    rw [hidst i, if_neg hany]
    exact hsr'
  · intro hnone
    unfold ResourceStore.clear_resource
    rw [hnone]
  · intro hempty
    refine ⟨?_, ?_⟩
    · intro U
      rw [hty U]
      by_cases hU : U = T
      · rw [if_pos hU, hU, hempty]
      · rw [if_neg hU]
    · intro i
      show (s.clear_resource T).id_store i = s.id_store i
      rw [hidst i, hempty]
      simp

/-- Witness for C10: clearing the Time entries of a one-element store
empties the Time list and unlinks the identifier. -/
theorem c10_clear_resource_frame_witness :
    ((runStoreOps [StoreOp.append CSIPAusResource.Time none ⟨some "/b", [], 0⟩ 2]
        ResourceStore.empty).clear_resource CSIPAusResource.Time).get_for_type
      CSIPAusResource.Time = [] ∧
    ((runStoreOps [StoreOp.append CSIPAusResource.Time none ⟨some "/b", [], 0⟩ 2]
        ResourceStore.empty).clear_resource CSIPAusResource.Time).get_for_id
      ⟨["/b"]⟩ = none := by
  have hcons : OpsConsistent (fun _ => CSIPAusResource.Time)
      [StoreOp.append CSIPAusResource.Time none ⟨some "/b", [], 0⟩ 2] := by
    intro op hop
    have heq : op = StoreOp.append CSIPAusResource.Time none ⟨some "/b", [], 0⟩ 2 := by
      simpa using hop
    subst heq
    intro i _
    rfl
  have hwf := StoreWF_runStoreOps (fun _ => CSIPAusResource.Time)
    [StoreOp.append CSIPAusResource.Time none ⟨some "/b", [], 0⟩ 2]
    ResourceStore.empty hcons (StoreWF_empty _)
  have h := c10_clear_resource_frame (fun _ => CSIPAusResource.Time)
    (runStoreOps [StoreOp.append CSIPAusResource.Time none ⟨some "/b", [], 0⟩ 2]
      ResourceStore.empty) hwf CSIPAusResource.Time
  refine ⟨h.1, ?_⟩
  have := h.2.1 ⟨⟨["/b"]⟩, 2, CSIPAusResource.Time, [], none, ⟨some "/b", [], 0⟩⟩
    (by decide)
  simpa using this

end Cactus
